import Mathlib

/-!
# The type terms of src/parser/Types.cpp

A shallow embedding of the type classes of `Types.cpp` (TypeBasic, TypePointer,
TypeArray, TypeConst, TypeStruct, ...) and of their methods `getSize`, `toString`,
`getElType`, `check`, `copy`, `isSimple`, `getElCount`, `updateByTypes`, together
with `getType`.

Conventions of the embedding.

* A `Type*` is modelled by the value of the object it points to: terms are finite
  trees, and an object reachable along two paths is represented by its value on
  each path. A method that assigns to a field of its receiver returns the
  receiver as it is after the call. Where the identity of an object matters
  (whether a copy shares an object with its original), the objects lie in a
  `Memory` and the fields hold addresses (`copyAt`, `toStringAt`).
* The global maps `generator->toReplace`, `AST::aliasTypes` and
  `AST::structTable` are association lists read through `List.lookup`; they are
  gathered in `Env`.
* `int` results are integers; an arithmetic step whose result leaves the range
  of a 32-bit `int` is undefined in C++ and is reported as `Failure.fault`.
* `while` loops and calls that re-enter the tables are bounded by a `fuel`
  argument; reaching the bound is reported as `Failure.fuel`.
-/

namespace Rave

/-! ## Data model -/

/-- The enumerators of `BasicType` (declared in Types.hpp, used by the switch
statements of `TypeBasic`). -/
inductive BasicType
  | Bool | Char | Uchar | Short | Ushort | Int | Uint | Long | Ulong
  | Cent | Ucent | Half | Bhalf | Float | Double
deriving DecidableEq, Repr

/-- The AST nodes that occur inside a type term, by what the type layer reads
from them: the `value` of a NodeInt (as the `int` that `value.to_int()` gives),
the `value` of a NodeFloat (as the text `std::to_string` gives for it), the
`value` of a NodeString; a node of any other class is `NodeOther`. -/
inductive Node
  | NodeInt (value : Int)
  | NodeFloat (value : String)
  | NodeString (value : String)
  | NodeOther (id : Nat)
deriving DecidableEq, Repr

/-- The classes derived from `Type`. The field `type` of TypeBasic is a `char`:
`some b` is the enumerator `b`, `none` a value that is no enumerator (the
`default:` branches). The field called `instance` in the source is `inst`. -/
inductive Ty
  | TypeBasic (type : Option BasicType)
  | TypePointer (inst : Ty)
  | TypeArray (count : Node) (element : Ty)
  | TypeAlias
  | TypeVoid
  | TypeConst (inst : Ty)
  | TypeStruct (name : String) (types : List Ty)
  | TypeTemplateMember (type : Ty) (value : Node)
  | TypeTemplateMemberDefinition (type : Ty) (name : String)
  | TypeFuncArg (type : Ty) (name : String)
  | TypeFunc (main : Ty) (args : List Ty) (isVarArg : Bool)
  | TypeBuiltin (name : String) (args : List Node) (block : Node)
  | TypeCall (name : String) (args : List Node)
  | TypeAuto
  | TypeLLVM (tr : Nat)
  | TypeVector (mainType : Ty) (count : Int)
  | TypeDivided (mainType : Ty) (divided : List Ty)

/-- An entry of `NodeStruct::elements`: a null pointer, a NodeVar (the queries
read its field `type`), or a node of another class. -/
inductive Element
  | null
  | NodeVar (type : Ty)
  | other (node : Node)

/-- A struct declaration, by the one field the type layer reads. -/
structure NodeStruct where
  elements : List Element

/-- The global state the methods read. `comptime` stands for the virtual
`Node::comptime`, whose overrides are not part of Types.cpp. -/
structure Env where
  toReplace : List (String × Ty)
  aliasTypes : List (String × Ty)
  structTable : List (String × NodeStruct)
  comptime : Node → Node

/-- How a call can end without a value. -/
inductive Failure
  | diagnostic (msg : String) (loc : Int)
  | fuel
  | fault
  | external
deriving DecidableEq, Repr

/-- Modelled from the spec: the diagnostic sink `generator->error(msg, loc)`,
whose code is not in the sources; it reports the message and aborts the
compilation, so the caller does not continue. -/
def generatorError {α : Type} (msg : String) (loc : Int) : Except Failure α :=
  .error (.diagnostic msg loc)

/-- The values of a 32-bit `int`. -/
def inRange (x : Int) : Prop := -2147483648 ≤ x ∧ x ≤ 2147483647

instance (x : Int) : Decidable (inRange x) := by
  unfold inRange
  exact inferInstance

/-- The result of an `int` operation: defined inside the 32-bit range only. -/
def intOp (x : Int) : Except Failure Int :=
  if inRange x then .ok x else .error .fault

/-- The expression `((NodeInt*)count->comptime())->value.to_int()`: the cast is
only valid when the reduced node is a NodeInt. -/
def countOf (env : Env) (count : Node) : Except Failure Int :=
  match env.comptime count with
  | .NodeInt value => .ok value
  | _ => .error .fault

/-! ## TypeBasic -/

/-- The switch of TypeBasic::getSize. -/
def TypeBasic.getSize : Option BasicType → Int
  | some .Bool => 1
  | some .Char | some .Uchar => 8
  | some .Short | some .Ushort | some .Half | some .Bhalf => 16
  | some .Int | some .Uint | some .Float => 32
  | some .Long | some .Ulong | some .Double => 64
  | some .Cent | some .Ucent => 128
  | none => 0

/-- TypeBasic::isFloat. -/
def TypeBasic.isFloat (type : Option BasicType) : Bool :=
  (type == some .Float) || (type == some .Double || type == some .Half || type == some .Bhalf)

/-- The switch of TypeBasic::toString. -/
def TypeBasic.toString : Option BasicType → String
  | some .Bool => "bool"
  | some .Char => "char" | some .Uchar => "uchar"
  | some .Short => "short" | some .Ushort => "ushort"
  | some .Int => "int" | some .Uint => "uint"
  | some .Float => "float"
  | some .Long => "long" | some .Ulong => "ulong"
  | some .Double => "double"
  | some .Cent => "cent" | some .Ucent => "cent"
  | some .Half => "half" | some .Bhalf => "bhalf"
  | none => "BasicUnknown"

/-! ## toString -/

/-- The virtual method toString. -/
def toString (env : Env) : Ty → Except Failure String
  | .TypeBasic type => .ok (TypeBasic.toString type)
  | .TypePointer inst => do
      let s ← toString env inst
      pure (s ++ "*")
  | .TypeArray count element => do
      let s ← toString env element
      let n ← countOf env count
      pure (s ++ "[" ++ ToString.toString n ++ "]")
  | .TypeAlias => .ok "alias"
  | .TypeVoid => .ok "void"
  | .TypeConst inst => toString env inst
  | .TypeStruct name _ => .ok name
  | .TypeTemplateMember type value => do
      let s ← toString env type
      match value with
      | .NodeInt v => pure ("@" ++ s ++ ToString.toString v)
      | .NodeFloat v => pure ("@" ++ s ++ v)
      | .NodeString v => pure ("@" ++ s ++ "\"" ++ v ++ "\"")
      | .NodeOther _ => pure ("@" ++ s)
  | .TypeTemplateMemberDefinition _ name => .ok name
  | .TypeFuncArg _ name => .ok name
  | .TypeFunc _ _ _ => .ok "NotImplemented"
  | .TypeBuiltin name _ _ => .ok name
  | .TypeCall _ _ => .ok "FuncCall"
  | .TypeAuto => .ok ""
  | .TypeLLVM _ => .ok ""
  | .TypeVector mainType count => do
      let s ← toString env mainType
      pure ("<" ++ s ++ " x " ++ ToString.toString count ++ ">")
  | .TypeDivided mainType divided => do
      let s ← toString env mainType
      match divided with
      | [] => .error .fault
      | d :: _ => do
          let e ← toString env d
          pure (s ++ " \x7b" ++ ToString.toString divided.length ++ " x " ++ e ++ "\x7d")

/-! ## The lookup loops -/

/-- The loop `while(table.find(t->toString()) != table.end()) t = table[t->toString()];`
with at most `fuel` rounds. -/
def chase (env : Env) (table : List (String × Ty)) : Nat → Ty → Except Failure Ty
  | 0, t => do
      let key ← toString env t
      match table.lookup key with
      | none => pure t
      | some _ => .error .fuel
  | fuel + 1, t => do
      let key ← toString env t
      match table.lookup key with
      | none => pure t
      | some next => chase env table fuel next

/-- The preamble shared by TypeStruct::getSize, isSimple and getElCount: the
loop over `generator->toReplace`, then the loop over `AST::aliasTypes`. -/
def resolve (env : Env) (fuel : Nat) (t : Ty) : Except Failure Ty := do
  let t ← chase env env.toReplace fuel t
  chase env env.aliasTypes fuel t

/-- The two statements that follow the preamble when `t` is a TypeStruct: the
struct table lookup with its diagnostic, and the template branch. The call of
`genWithTemplate` leaves Types.cpp (`Failure.external`); its argument
`name.substr(name.find('<'))` throws when the name has no `<`. -/
def structDecl (env : Env) (name : String) (types : List Ty) : Except Failure NodeStruct :=
  match env.structTable.lookup name with
  | none => generatorError ("undefined structure '" ++ name ++ "'!") (-1)
  | some decl =>
      if types.isEmpty then .ok decl
      else if name.toList.contains '<' then .error .external
      else .error .fault

/-! ## getSize -/

/-- The loop of TypeStruct::getSize over the elements, `size` being the
accumulator and `f` the call `nvar->type->getSize()`. -/
def sumFields (f : Ty → Except Failure Int) : List Element → Int → Except Failure Int
  | [], size => .ok size
  | .NodeVar type :: rest, size => do
      let s ← f type
      let size ← intOp (size + s)
      sumFields f rest size
  | _ :: rest, size => sumFields f rest size

/-- The loop of TypeDivided::getSize. -/
def sumDivided (f : Ty → Except Failure Int) : List Ty → Int → Except Failure Int
  | [], sum => .ok sum
  | d :: rest, sum => do
      let s ← f d
      let sum ← intOp (sum + s)
      sumDivided f rest sum

/-- The virtual method getSize; every call takes one unit of `fuel`. -/
def getSize (env : Env) : Nat → Ty → Except Failure Int
  | 0, _ => .error .fuel
  | fuel + 1, t =>
    match t with
    | .TypeBasic type => .ok (TypeBasic.getSize type)
    | .TypePointer _ => .ok 8
    | .TypeArray count element => do
        let n ← countOf env count
        let s ← getSize env fuel element
        intOp (n * s)
    | .TypeAlias => .ok 0
    | .TypeVoid => .ok 0
    | .TypeConst inst => getSize env fuel inst
    | .TypeStruct name types => do
        let t ← resolve env fuel (.TypeStruct name types)
        match t with
        | .TypeStruct name types => do
            let decl ← structDecl env name types
            sumFields (getSize env fuel) decl.elements 0
        | t => getSize env fuel t
    | .TypeTemplateMember type _ => getSize env fuel type
    | .TypeTemplateMemberDefinition type _ => getSize env fuel type
    | .TypeFuncArg type _ => getSize env fuel type
    | .TypeFunc _ _ _ => .ok 8
    | .TypeBuiltin _ _ _ => .ok 0
    | .TypeCall _ _ => .ok 0
    | .TypeAuto => .ok 0
    | .TypeLLVM _ => .ok 0
    | .TypeVector mainType count => do
        let s ← getSize env fuel mainType
        intOp (s * count)
    | .TypeDivided _ divided => sumDivided (getSize env fuel) divided 0

/-! ## isSimple and getElCount -/

/-- The loop of TypeStruct::isSimple: false at the first NodeVar whose type is
not a TypeBasic. -/
def allBasic : List Element → Bool
  | [] => true
  | .NodeVar (.TypeBasic _) :: rest => allBasic rest
  | .NodeVar _ :: _ => false
  | _ :: rest => allBasic rest

/-- TypeStruct::isSimple, for the receiver `TypeStruct name types`. -/
def isSimple (env : Env) (fuel : Nat) (name : String) (types : List Ty) : Except Failure Bool := do
  let t ← resolve env fuel (.TypeStruct name types)
  match t with
  | .TypeStruct name types => do
      let decl ← structDecl env name types
      pure (allBasic decl.elements)
  | _ => pure true

/-- The loop of TypeStruct::getElCount. -/
def countFields : List Element → Int → Except Failure Int
  | [], size => .ok size
  | .NodeVar _ :: rest, size => do
      let size ← intOp (size + 1)
      countFields rest size
  | _ :: rest, size => countFields rest size

/-- TypeStruct::getElCount, for the receiver `TypeStruct name types`. -/
def getElCount (env : Env) (fuel : Nat) (name : String) (types : List Ty) : Except Failure Int := do
  let t ← resolve env fuel (.TypeStruct name types)
  match t with
  | .TypeStruct name types => do
      let decl ← structDecl env name types
      countFields decl.elements 0
  | _ => pure 1

/-! ## getElType -/

/-- The virtual method getElType. The value is the pair of the pointer returned
and the receiver after the call: TypePointer::getElType assigns to `instance`.
One round of its `while` loop is the call `instance->getElType()` followed by
the rest of the method on the receiver with the new `instance`. -/
def getElType : Nat → Ty → Except Failure (Ty × Ty)
  | 0, _ => .error .fuel
  | fuel + 1, t =>
    match t with
    | .TypePointer inst =>
        match inst with
        | .TypeConst _ => do
            let r ← getElType fuel inst
            getElType fuel (.TypePointer r.1)
        | .TypeVoid => .ok (.TypeBasic (some .Char), t)
        | _ => .ok (inst, t)
    | .TypeArray _ element => .ok (element, t)
    | .TypeConst inst => do
        let r ← getElType fuel inst
        pure (r.1, .TypeConst r.2)
    | .TypeTemplateMember type value => do
        let r ← getElType fuel type
        pure (r.1, .TypeTemplateMember r.2 value)
    | .TypeTemplateMemberDefinition type name => do
        let r ← getElType fuel type
        pure (r.1, .TypeTemplateMemberDefinition r.2 name)
    | .TypeFuncArg type name => do
        let r ← getElType fuel type
        pure (r.1, .TypeFuncArg r.2 name)
    | .TypeVector mainType _ => .ok (mainType, t)
    | .TypeBasic _ | .TypeAlias | .TypeVoid | .TypeStruct _ _ | .TypeFunc _ _ _
    | .TypeBuiltin _ _ _ | .TypeCall _ _ | .TypeAuto | .TypeLLVM _ | .TypeDivided _ _ =>
        .ok (t, t)

/-! ## check -/

/-- What a call `t->check(parent)` leaves behind: the pointer returned (`none`
for nullptr), the receiver after the call, and the term the call has assigned
to the slot of `parent` (`instance` of a TypePointer or TypeConst, `element` of
a TypeArray), if it has assigned one. -/
structure Checked where
  ret : Option Ty
  self : Ty
  slot : Option Ty

/-- The term in the slot of the parent after the call of `check` on the term
that was in it. -/
def Checked.inSlot (c : Checked) : Ty := c.slot.getD c.self

/-- TypeStruct::check, for the receiver `TypeStruct name types`. -/
def TypeStruct.check (env : Env) (fuel : Nat) (name : String) (types : List Ty)
    (parent : Option Ty) : Except Failure Checked :=
  match env.aliasTypes.lookup name with
  | some first => do
      let t ← chase env env.aliasTypes fuel first
      match parent with
      | none => pure ⟨some t, .TypeStruct name types, none⟩
      | some (.TypePointer _) => pure ⟨none, .TypeStruct name types, some t⟩
      | some (.TypeArray _ _) => pure ⟨none, .TypeStruct name types, some t⟩
      | some (.TypeConst _) => pure ⟨none, .TypeStruct name types, some t⟩
      | some _ => pure ⟨none, .TypeStruct name types, none⟩
  | none => pure ⟨none, .TypeStruct name types, none⟩

/-- The virtual method check. -/
def check (env : Env) (fuel : Nat) : Ty → Option Ty → Except Failure Checked
  | .TypePointer inst, _ =>
      match inst with
      | .TypeBasic _ => pure ⟨none, .TypePointer inst, none⟩
      | _ => do
          let c ← check env fuel inst (some (.TypePointer inst))
          pure ⟨none, .TypePointer c.inSlot, none⟩
  | .TypeArray count element, _ =>
      match element with
      | .TypeBasic _ => pure ⟨none, .TypeArray count element, none⟩
      | _ => do
          let c ← check env fuel element (some (.TypeArray count element))
          pure ⟨none, .TypeArray count c.inSlot, none⟩
  | .TypeConst inst, _ => do
      let c ← check env fuel inst none
      pure ⟨none, .TypeConst c.inSlot, none⟩
  | .TypeStruct name types, parent => TypeStruct.check env fuel name types parent
  | t, _ => pure ⟨none, t, none⟩

/-! ## getType -/

/-- Modelled from the spec: the registry `basicTypes`, which is filled by an
initialisation that is not in the sources; it maps every tag to the TypeBasic
of that tag. -/
def basicTypes (type : BasicType) : Ty := .TypeBasic (some type)

/-- The global `typeVoid`. -/
def typeVoid : Ty := .TypeVoid

/-- The static map of getType. -/
def getType.types : List (String × Ty) :=
  [("bool", basicTypes .Bool), ("char", basicTypes .Char), ("uchar", basicTypes .Uchar),
   ("short", basicTypes .Short), ("ushort", basicTypes .Ushort), ("int", basicTypes .Int),
   ("uint", basicTypes .Uint), ("long", basicTypes .Long), ("ulong", basicTypes .Ulong),
   ("cent", basicTypes .Cent), ("ucent", basicTypes .Ucent), ("half", basicTypes .Half),
   ("bhalf", basicTypes .Bhalf), ("float", basicTypes .Float), ("double", basicTypes .Double),
   ("void", typeVoid), ("alias", .TypeAlias),
   ("int4", .TypeVector (.TypeBasic (some .Int)) 4),
   ("int8", .TypeVector (.TypeBasic (some .Int)) 8),
   ("float4", .TypeVector (.TypeBasic (some .Float)) 4),
   ("float2", .TypeVector (.TypeBasic (some .Float)) 2),
   ("float8", .TypeVector (.TypeBasic (some .Float)) 8),
   ("short8", .TypeVector (.TypeBasic (some .Short)) 8)]

/-- The function getType. -/
def getType (id : String) : Ty :=
  match getType.types.lookup id with
  | some t => t
  | none => .TypeStruct id []

/-! ## copy -/

mutual
/-- The virtual method copy, on the values of the terms. `nodeCopy` stands for
the virtual `Node::copy`, which TypeBuiltin::copy calls on its block and whose
overrides are not part of Types.cpp. TypeVector::copy and TypeDivided::copy
pass their fields on without a call of `copy`. -/
def copy (nodeCopy : Node → Node) : Ty → Ty
  | .TypeBasic type => .TypeBasic type
  | .TypePointer inst => .TypePointer (copy nodeCopy inst)
  | .TypeArray count element => .TypeArray count (copy nodeCopy element)
  | .TypeAlias => .TypeAlias
  | .TypeVoid => .TypeVoid
  | .TypeConst inst => .TypeConst (copy nodeCopy inst)
  | .TypeStruct name types => .TypeStruct name (copyEach nodeCopy types)
  | .TypeTemplateMember type value => .TypeTemplateMember (copy nodeCopy type) value
  | .TypeTemplateMemberDefinition type name =>
      .TypeTemplateMemberDefinition (copy nodeCopy type) name
  | .TypeFuncArg type name => .TypeFuncArg (copy nodeCopy type) name
  | .TypeFunc main args isVarArg =>
      .TypeFunc (copy nodeCopy main) (copyEach nodeCopy args) isVarArg
  | .TypeBuiltin name args block => .TypeBuiltin name args (nodeCopy block)
  | .TypeCall name args => .TypeCall name args
  | .TypeAuto => .TypeAuto
  | .TypeLLVM tr => .TypeLLVM tr
  | .TypeVector mainType count => .TypeVector mainType count
  | .TypeDivided mainType divided => .TypeDivided mainType divided
/-- The loops of TypeStruct::copy and TypeFunc::copy, which push the copy of
each entry. -/
def copyEach (nodeCopy : Node → Node) : List Ty → List Ty
  | [] => []
  | t :: rest => copy nodeCopy t :: copyEach nodeCopy rest
end

/-! ## The objects in memory

The terms above are values. Where the identity of an object matters (two
pointers to one object), the objects are laid out in a memory: a field of class
`Type*` holds the address of the object it points to. -/

/-- A `Type` object in memory; the fields are those of `Ty`, with addresses in
the place of sub-terms. -/
inductive TypeObj
  | TypeBasic (type : Option BasicType)
  | TypePointer (inst : Nat)
  | TypeArray (count : Node) (element : Nat)
  | TypeAlias
  | TypeVoid
  | TypeConst (inst : Nat)
  | TypeStruct (name : String) (types : List Nat)
  | TypeTemplateMember (type : Nat) (value : Node)
  | TypeTemplateMemberDefinition (type : Nat) (name : String)
  | TypeFuncArg (type : Nat) (name : String)
  | TypeFunc (main : Nat) (args : List Nat) (isVarArg : Bool)
  | TypeBuiltin (name : String) (args : List Node) (block : Node)
  | TypeCall (name : String) (args : List Node)
  | TypeAuto
  | TypeLLVM (tr : Nat)
  | TypeVector (mainType : Nat) (count : Int)
  | TypeDivided (mainType : Nat) (divided : List Nat)
deriving DecidableEq, Repr

/-- The memory: the object at address `a` is the entry of index `a`. -/
abbrev Memory := List TypeObj

/-- The expression `new T(...)`: the object is put at the first free address,
which is returned with the memory after the allocation. -/
def Memory.new (m : Memory) (o : TypeObj) : Nat × Memory := (m.length, m ++ [o])

/-- The loops of TypeStruct::copy and TypeFunc::copy in memory, `f` being the
call `->copy()`. -/
def copyEachAt (f : Memory → Nat → Except Failure (Nat × Memory)) :
    List Nat → Memory → Except Failure (List Nat × Memory)
  | [], m => .ok ([], m)
  | a :: rest, m => do
      let r ← f m a
      let rs ← copyEachAt f rest r.2
      pure (r.1 :: rs.1, rs.2)

/-- The virtual method copy in memory: the address of the new object and the
memory after the call. An address that holds no object is a fault. -/
def copyAt (nodeCopy : Node → Node) : Nat → Memory → Nat → Except Failure (Nat × Memory)
  | 0, _, _ => .error .fuel
  | fuel + 1, m, a =>
    match m[a]? with
    | none => .error .fault
    | some (.TypeBasic type) => .ok (Memory.new m (.TypeBasic type))
    | some (.TypePointer inst) => do
        let r ← copyAt nodeCopy fuel m inst
        pure (Memory.new r.2 (.TypePointer r.1))
    | some (.TypeArray count element) => do
        let r ← copyAt nodeCopy fuel m element
        pure (Memory.new r.2 (.TypeArray count r.1))
    | some .TypeAlias => .ok (Memory.new m .TypeAlias)
    | some .TypeVoid => .ok (Memory.new m .TypeVoid)
    | some (.TypeConst inst) => do
        let r ← copyAt nodeCopy fuel m inst
        pure (Memory.new r.2 (.TypeConst r.1))
    | some (.TypeStruct name types) => do
        let rs ← copyEachAt (copyAt nodeCopy fuel) types m
        pure (Memory.new rs.2 (.TypeStruct name rs.1))
    | some (.TypeTemplateMember type value) => do
        let r ← copyAt nodeCopy fuel m type
        pure (Memory.new r.2 (.TypeTemplateMember r.1 value))
    | some (.TypeTemplateMemberDefinition type name) => do
        let r ← copyAt nodeCopy fuel m type
        pure (Memory.new r.2 (.TypeTemplateMemberDefinition r.1 name))
    | some (.TypeFuncArg type name) => do
        let r ← copyAt nodeCopy fuel m type
        pure (Memory.new r.2 (.TypeFuncArg r.1 name))
    | some (.TypeFunc main args isVarArg) => do
        let rs ← copyEachAt (copyAt nodeCopy fuel) args m
        let r ← copyAt nodeCopy fuel rs.2 main
        pure (Memory.new r.2 (.TypeFunc r.1 rs.1 isVarArg))
    | some (.TypeBuiltin name args block) =>
        .ok (Memory.new m (.TypeBuiltin name args (nodeCopy block)))
    | some (.TypeCall name args) => .ok (Memory.new m (.TypeCall name args))
    | some .TypeAuto => .ok (Memory.new m .TypeAuto)
    | some (.TypeLLVM tr) => .ok (Memory.new m (.TypeLLVM tr))
    | some (.TypeVector mainType count) => .ok (Memory.new m (.TypeVector mainType count))
    | some (.TypeDivided mainType divided) =>
        .ok (Memory.new m (.TypeDivided mainType divided))

/-- The virtual method toString in memory. -/
def toStringAt (env : Env) : Nat → Memory → Nat → Except Failure String
  | 0, _, _ => .error .fuel
  | fuel + 1, m, a =>
    match m[a]? with
    | none => .error .fault
    | some (.TypeBasic type) => .ok (TypeBasic.toString type)
    | some (.TypePointer inst) => do
        let s ← toStringAt env fuel m inst
        pure (s ++ "*")
    | some (.TypeArray count element) => do
        let s ← toStringAt env fuel m element
        let n ← countOf env count
        pure (s ++ "[" ++ ToString.toString n ++ "]")
    | some .TypeAlias => .ok "alias"
    | some .TypeVoid => .ok "void"
    | some (.TypeConst inst) => toStringAt env fuel m inst
    | some (.TypeStruct name _) => .ok name
    | some (.TypeTemplateMember type value) => do
        let s ← toStringAt env fuel m type
        match value with
        | .NodeInt v => pure ("@" ++ s ++ ToString.toString v)
        | .NodeFloat v => pure ("@" ++ s ++ v)
        | .NodeString v => pure ("@" ++ s ++ "\"" ++ v ++ "\"")
        | .NodeOther _ => pure ("@" ++ s)
    | some (.TypeTemplateMemberDefinition _ name) => .ok name
    | some (.TypeFuncArg _ name) => .ok name
    | some (.TypeFunc _ _ _) => .ok "NotImplemented"
    | some (.TypeBuiltin name _ _) => .ok name
    | some (.TypeCall _ _) => .ok "FuncCall"
    | some .TypeAuto => .ok ""
    | some (.TypeLLVM _) => .ok ""
    | some (.TypeVector mainType count) => do
        let s ← toStringAt env fuel m mainType
        pure ("<" ++ s ++ " x " ++ ToString.toString count ++ ">")
    | some (.TypeDivided mainType divided) => do
        let s ← toStringAt env fuel m mainType
        match divided with
        | [] => .error .fault
        | d :: _ => do
            let e ← toStringAt env fuel m d
            pure (s ++ " \x7b" ++ ToString.toString divided.length ++ " x " ++ e ++ "\x7d")

/-- The assignments `tp->instance = _t`, `ta->element = _t` and
`tc->instance = _t` of TypeStruct::check, on the parent at address `a`. -/
def assignSlot (m : Memory) (a : Nat) (v : Nat) : Memory :=
  match m[a]? with
  | some (.TypePointer _) => m.set a (.TypePointer v)
  | some (.TypeArray count _) => m.set a (.TypeArray count v)
  | some (.TypeConst _) => m.set a (.TypeConst v)
  | _ => m

/-! ## updateByTypes -/

/-- The loop of TypeStruct::updateByTypes: `name += types[i]->toString() + ","`. -/
def appendTypes (env : Env) : List Ty → String → Except Failure String
  | [], name => .ok name
  | t :: rest, name => do
      let s ← toString env t
      appendTypes env rest (name ++ (s ++ ","))

/-- TypeStruct::updateByTypes on the receiver `TypeStruct name types`: the value
of `name` after the call. `name.substr(0, name.find('<'))` is the text before
the first `<`, and `name.substr(0, name.size()-1)` drops the last character
(the name is not empty there). -/
def updateByTypes (env : Env) (name : String) (types : List Ty) : Except Failure String :=
  if name.toList.contains '<' then do
    let name ← appendTypes env types (String.mk (name.toList.takeWhile (· != '<')) ++ "<")
    pure (String.mk name.toList.dropLast ++ ">")
  else .ok name

/-! ## Auxiliary definitions for the statements -/

/-- The types of the NodeVar entries of a list of elements, in order. -/
def varTypes : List Element → List Ty
  | [] => []
  | .NodeVar type :: rest => type :: varTypes rest
  | _ :: rest => varTypes rest

/-- The scenario of the struct layout: `S` is `{int a; char b; double c;}` and
`T` is `{int a; S b;}`; no alias, no substitution. -/
def layoutEnv : Env where
  toReplace := []
  aliasTypes := []
  structTable :=
    [("S", ⟨[.NodeVar (.TypeBasic (some .Int)), .NodeVar (.TypeBasic (some .Char)),
             .NodeVar (.TypeBasic (some .Double))]⟩),
     ("T", ⟨[.NodeVar (.TypeBasic (some .Int)), .NodeVar (.TypeStruct "S" [])]⟩)]
  comptime := id

/-- The chains of the alias table: `AliasChain env n k r` when `k` lookups lead
from the name `n` to the term `r`, every entry met before `r` being a
TypeStruct, whose name is the next key. -/
inductive AliasChain (env : Env) : String → Nat → Ty → Prop
  | last (n : String) (r : Ty) :
      env.aliasTypes.lookup n = some r → AliasChain env n 1 r
  | step (n m : String) (types : List Ty) (k : Nat) (r : Ty) :
      env.aliasTypes.lookup n = some (.TypeStruct m types) → AliasChain env m k r →
      AliasChain env n (k + 1) r

/-- The scenario of alias transitivity: `alias A = B; alias B = int;`. -/
def aliasEnv : Env where
  toReplace := []
  aliasTypes := [("A", .TypeStruct "B" []), ("B", .TypeBasic (some .Int))]
  structTable := []
  comptime := id

/-- The loop `resolve` of section 4.3 of the specification, written from its
words: replace `t` by `substitutionTable[t.toString()]` if present, else by
`aliasTable[t.toString()]` if present, and repeat until neither table has the
key; at most `fuel` replacements. -/
def resolveSpec (env : Env) : Nat → Ty → Except Failure Ty
  | 0, t => do
      let key ← toString env t
      match env.toReplace.lookup key with
      | some _ => .error .fuel
      | none =>
          match env.aliasTypes.lookup key with
          | some _ => .error .fuel
          | none => pure t
  | fuel + 1, t => do
      let key ← toString env t
      match env.toReplace.lookup key with
      | some next => resolveSpec env fuel next
      | none =>
          match env.aliasTypes.lookup key with
          | some next => resolveSpec env fuel next
          | none => pure t

/-- No entry of the alias table prints as a key of the substitution table. -/
def aliasesAvoidSubstitution (env : Env) : Bool :=
  env.aliasTypes.all fun entry =>
    match toString env entry.2 with
    | .ok key => (env.toReplace.lookup key).isNone
    | .error _ => true

/-- An alias that leads to a substitution key: `alias A = T` while the
substitution table maps `T` to `int`. -/
def substEnv : Env where
  toReplace := [("T", .TypeBasic (some .Int))]
  aliasTypes := [("A", .TypeStruct "T" [])]
  structTable := []
  comptime := id

/-- A substitution that leads to an alias chain: the substitution table maps
`T` to `A`, with `alias A = B; alias B = int;`. -/
def instEnv : Env where
  toReplace := [("T", .TypeStruct "A" [])]
  aliasTypes := [("A", .TypeStruct "B" []), ("B", .TypeBasic (some .Int))]
  structTable := []
  comptime := id

/-- No table has an entry. -/
def emptyEnv : Env where
  toReplace := []
  aliasTypes := []
  structTable := []
  comptime := id

/-- The table of section 3.1 of the specification: the bit size of each tag. -/
def specSize : BasicType → Int
  | .Bool => 1
  | .Char => 8 | .Uchar => 8
  | .Short => 16 | .Ushort => 16 | .Half => 16 | .Bhalf => 16
  | .Int => 32 | .Uint => 32 | .Float => 32
  | .Long => 64 | .Ulong => 64 | .Double => 64
  | .Cent => 128 | .Ucent => 128

/-- The table of section 3.1 of the specification: the tags that are floats. -/
def specIsFloat : BasicType → Bool
  | .Float => true | .Double => true | .Half => true | .Bhalf => true
  | _ => false

/-- The primitive names of the specification, one for each tag. -/
def specName : BasicType → String
  | .Bool => "bool" | .Char => "char" | .Uchar => "uchar"
  | .Short => "short" | .Ushort => "ushort" | .Int => "int" | .Uint => "uint"
  | .Long => "long" | .Ulong => "ulong" | .Cent => "cent" | .Ucent => "ucent"
  | .Half => "half" | .Bhalf => "bhalf" | .Float => "float" | .Double => "double"

/-- The term `Const^k(t)`: `k` TypeConst wrappers around `t`. -/
def constWrap : Nat → Ty → Ty
  | 0, t => t
  | k + 1, t => .TypeConst (constWrap k t)

/-- The scenario of alias redirection: `alias MyInt = int;`. -/
def myIntEnv : Env where
  toReplace := []
  aliasTypes := [("MyInt", .TypeBasic (some .Int))]
  structTable := []
  comptime := id

/-- An alias of void: `alias V = void;`. -/
def voidAliasEnv : Env where
  toReplace := []
  aliasTypes := [("V", .TypeVoid)]
  structTable := []
  comptime := id

/-- An alias whose entry holds another alias under a pointer:
`alias A = B*; alias B = int;`. -/
def nestedAliasEnv : Env where
  toReplace := []
  aliasTypes := [("A", .TypePointer (.TypeStruct "B" [])), ("B", .TypeBasic (some .Int))]
  structTable := []
  comptime := id

/-- The class of the parent as TypeStruct::check tells it apart: 0 for nullptr,
1 for a TypePointer, TypeArray or TypeConst, 2 for any other class. -/
def parentKind : Option Ty → Nat
  | none => 0
  | some (.TypePointer _) => 1
  | some (.TypeArray _ _) => 1
  | some (.TypeConst _) => 1
  | some _ => 2

/-- The call `t->check(parent)` succeeds and leaves `t` in its place. -/
def Stable (env : Env) (fuel : Nat) (t : Ty) (parent : Option Ty) : Prop :=
  ∃ c, check env fuel t parent = .ok c ∧ c.inSlot = t

/-- Every entry of the alias table that ends a chain (its printed form is no
alias key) is left as it is by `check`. -/
def AliasEntriesChecked (env : Env) (fuel : Nat) : Prop :=
  ∀ name v key, env.aliasTypes.lookup name = some v → toString env v = .ok key →
    env.aliasTypes.lookup key = none → ∀ parent, Stable env fuel v parent

/-- A memory with the term `Vector(Pointer(Struct("MyInt")), 4)` at address 2
(its Pointer at address 1), the term `Divided(Pointer(Struct("MyInt")), [the
same Pointer])` at address 4, and at address 3 the `Basic(Int)` that
`aliasTypes["MyInt"]` points to. -/
def sharedMemory : Memory :=
  [.TypeStruct "MyInt" [], .TypePointer 0, .TypeVector 1 4, .TypeBasic (some .Int),
   .TypeDivided 1 [1]]

/-- A struct name that is also an alias: `S` is registered in the struct table
with the fields `{int a; int* b;}` and `aliasTypes["S"] = Basic(Int)`. -/
def shadowEnv : Env where
  toReplace := []
  aliasTypes := [("S", .TypeBasic (some .Int))]
  structTable :=
    [("S", ⟨[.NodeVar (.TypeBasic (some .Int)),
             .NodeVar (.TypePointer (.TypeBasic (some .Int)))]⟩)]
  comptime := id

/-- The chain `alias A = B; alias B = int;` with `A` also a key of the
substitution table: `toReplace["A"] = Basic(Long)`. -/
def substitutedEnv : Env where
  toReplace := [("A", .TypeBasic (some .Long))]
  aliasTypes := [("A", .TypeStruct "B" []), ("B", .TypeBasic (some .Int))]
  structTable := []
  comptime := id

/-! ## Lemmas on the lookup loops -/

theorem bind_ok {α β : Type} (a : α) (f : α → Except Failure β) :
    (Except.ok a >>= f) = f a := rfl

theorem bind_error {α β : Type} (e : Failure) (f : α → Except Failure β) :
    ((Except.error e : Except Failure α) >>= f) = Except.error e := rfl

theorem pure_eq_ok {α : Type} (a : α) : (pure a : Except Failure α) = Except.ok a := rfl

/-- The loop stops at once on a term whose printed form is no key. -/
theorem chase_stop (env : Env) (table : List (String × Ty)) (fuel : Nat) (t : Ty) (key : String)
    (hk : toString env t = .ok key) (hl : table.lookup key = none) :
    chase env table fuel t = .ok t := by
  cases fuel <;> simp [chase, hk, hl, bind_ok, pure_eq_ok]

/-- One round of the loop. -/
theorem chase_step (env : Env) (table : List (String × Ty)) (fuel : Nat) (t next : Ty)
    (key : String) (hk : toString env t = .ok key) (hl : table.lookup key = some next) :
    chase env table (fuel + 1) t = chase env table fuel next := by
  simp [chase, hk, hl, bind_ok]

/-- The preamble leaves a TypeStruct whose name is a key of neither table. -/
theorem resolve_struct_self (env : Env) (fuel : Nat) (name : String) (types : List Ty)
    (hR : env.toReplace.lookup name = none) (hA : env.aliasTypes.lookup name = none) :
    resolve env fuel (.TypeStruct name types) = .ok (.TypeStruct name types) := by
  have h : toString env (.TypeStruct name types) = .ok name := by simp [toString]
  simp [resolve, chase_stop env _ fuel _ name h hR, chase_stop env _ fuel _ name h hA, bind_ok]

/-- The lookup in the struct table of a registered name without type arguments. -/
theorem structDecl_registered (env : Env) (name : String) (decl : NodeStruct)
    (hS : env.structTable.lookup name = some decl) :
    structDecl env name [] = .ok decl := by
  simp [structDecl, hS]

theorem intOp_inRange (x : Int) (h : inRange x) : intOp x = .ok x := by
  simp [intOp, h]

/-- The loop over the elements adds the sizes of the NodeVar types, as long as
the running sum stays an `int`. -/
theorem sumFields_eq (f : Ty → Except Failure Int) (elements : List Element) :
    ∀ (sizes : List Int) (acc : Int),
      List.Forall₂ (fun ty s => f ty = .ok s) (varTypes elements) sizes →
      (∀ n, n ≤ sizes.length → inRange (acc + (sizes.take n).sum)) →
      sumFields f elements acc = .ok (acc + sizes.sum) := by
  induction elements with
  | nil =>
      intro sizes acc h _
      cases h
      simp [sumFields]
  | cons e rest ih =>
      intro sizes acc h hr
      cases e with
      | null => simpa [sumFields] using ih sizes acc h hr
      | other node => simpa [sumFields] using ih sizes acc h hr
      | NodeVar type =>
          cases h with
          | cons hs htail =>
              rename_i s sizes
              have h1 : inRange (acc + s) := by simpa using hr 1 (by simp)
              have h2 : ∀ n, n ≤ sizes.length → inRange (acc + s + (sizes.take n).sum) := by
                intro n hn
                have := hr (n + 1) (by simpa using hn)
                simpa [List.take_succ_cons, add_assoc] using this
              simp [sumFields, hs, bind_ok, intOp_inRange _ h1, ih sizes (acc + s) htail h2,
                add_assoc]

/-! ## More fuel changes no result -/

theorem bind_eq_ok {α β : Type} (x : Except Failure α) (f : α → Except Failure β) (b : β) :
    (x >>= f) = .ok b ↔ ∃ a, x = .ok a ∧ f a = .ok b := by
  cases x <;> simp [bind_ok, bind_error]

/-- A loop that has stopped within `a` rounds stops the same way within more. -/
theorem chase_mono (env : Env) (table : List (String × Ty)) :
    ∀ (a : Nat) (t r : Ty), chase env table a t = .ok r →
      ∀ b, a ≤ b → chase env table b t = .ok r := by
  intro a
  induction a with
  | zero =>
      intro t r h b _
      simp only [chase, bind_eq_ok] at h
      obtain ⟨key, hk, h⟩ := h
      cases hl : table.lookup key with
      | none =>
          rw [hl] at h
          simp only [pure_eq_ok] at h
          rw [← Except.ok.inj h]
          exact chase_stop env table b t key hk hl
      | some next => rw [hl] at h; simp at h
  | succ a ih =>
      intro t r h b hb
      obtain ⟨b, rfl⟩ : ∃ c, b = c + 1 := ⟨b - 1, by omega⟩
      simp only [chase, bind_eq_ok] at h
      obtain ⟨key, hk, h⟩ := h
      cases hl : table.lookup key with
      | none =>
          rw [hl] at h
          simp only [pure_eq_ok] at h
          rw [← Except.ok.inj h]
          exact chase_stop env table _ t key hk hl
      | some next =>
          rw [hl] at h
          rw [chase_step env table b t next key hk hl]
          exact ih next r h b (by omega)

theorem resolve_mono (env : Env) (a : Nat) (t r : Ty) (h : resolve env a t = .ok r)
    (b : Nat) (hb : a ≤ b) : resolve env b t = .ok r := by
  simp only [resolve, bind_eq_ok] at h ⊢
  obtain ⟨m, h1, h2⟩ := h
  exact ⟨m, chase_mono env _ a t m h1 b hb, chase_mono env _ a m r h2 b hb⟩

theorem sumFields_mono (f g : Ty → Except Failure Int)
    (hfg : ∀ ty s, f ty = .ok s → g ty = .ok s) (elements : List Element) :
    ∀ (acc s : Int), sumFields f elements acc = .ok s → sumFields g elements acc = .ok s := by
  induction elements with
  | nil => intro acc s h; simpa [sumFields] using h
  | cons e rest ih =>
      intro acc s h
      cases e with
      | null => simp only [sumFields] at h ⊢; exact ih acc s h
      | other node => simp only [sumFields] at h ⊢; exact ih acc s h
      | NodeVar type =>
          simp only [sumFields, bind_eq_ok] at h ⊢
          obtain ⟨s1, h1, acc1, h2, h3⟩ := h
          exact ⟨s1, hfg type s1 h1, acc1, h2, ih acc1 s h3⟩

theorem sumDivided_mono (f g : Ty → Except Failure Int)
    (hfg : ∀ ty s, f ty = .ok s → g ty = .ok s) (divided : List Ty) :
    ∀ (acc s : Int), sumDivided f divided acc = .ok s → sumDivided g divided acc = .ok s := by
  induction divided with
  | nil => intro acc s h; simpa [sumDivided] using h
  | cons d rest ih =>
      intro acc s h
      simp only [sumDivided, bind_eq_ok] at h ⊢
      obtain ⟨s1, h1, acc1, h2, h3⟩ := h
      exact ⟨s1, hfg d s1 h1, acc1, h2, ih acc1 s h3⟩

/-- A size obtained within `a` nested calls is obtained within more. -/
theorem getSize_mono (env : Env) :
    ∀ (a : Nat) (t : Ty) (s : Int), getSize env a t = .ok s →
      ∀ b, a ≤ b → getSize env b t = .ok s := by
  intro a
  induction a with
  | zero => intro t s h; simp [getSize] at h
  | succ a ih =>
      intro t s h b hb
      obtain ⟨b, rfl⟩ : ∃ c, b = c + 1 := ⟨b - 1, by omega⟩
      have hab : a ≤ b := by omega
      have hfg : ∀ ty s, getSize env a ty = .ok s → getSize env b ty = .ok s :=
        fun ty s h => ih ty s h b hab
      cases t with
      | TypeArray count element =>
          simp only [getSize, bind_eq_ok] at h ⊢
          obtain ⟨n, h1, s1, h2, h3⟩ := h
          exact ⟨n, h1, s1, hfg _ _ h2, h3⟩
      | TypeStruct name types =>
          simp only [getSize, bind_eq_ok] at h ⊢
          obtain ⟨r, h1, h2⟩ := h
          refine ⟨r, resolve_mono env a _ r h1 b hab, ?_⟩
          cases r with
          | TypeStruct name types =>
              simp only [bind_eq_ok] at h2 ⊢
              obtain ⟨decl, h3, h4⟩ := h2
              exact ⟨decl, h3, sumFields_mono _ _ hfg _ _ _ h4⟩
          | _ => exact hfg _ _ h2
      | TypeVector mainType count =>
          simp only [getSize, bind_eq_ok] at h ⊢
          obtain ⟨s1, h1, h2⟩ := h
          exact ⟨s1, hfg _ _ h1, h2⟩
      | TypeDivided mainType divided =>
          simp only [getSize] at h ⊢
          exact sumDivided_mono _ _ hfg _ _ _ h
      | TypeConst inst => simp only [getSize] at h ⊢; exact hfg _ _ h
      | TypeTemplateMember type value => simp only [getSize] at h ⊢; exact hfg _ _ h
      | TypeTemplateMemberDefinition type name => simp only [getSize] at h ⊢; exact hfg _ _ h
      | TypeFuncArg type name => simp only [getSize] at h ⊢; exact hfg _ _ h
      | _ => simpa [getSize] using h

/-! ## Struct layout -/

/-- C1: for a struct name `S` registered in the struct table with declaration
`decl`, `S` being a key of neither the substitution table nor the alias table
and the term having no type arguments, `Struct(S).size()` is the plain sum of
the sizes of the types of the NodeVar elements of `decl`, in order and with
nothing added between them, each of these sizes being what `getSize` itself
answers for the field type (so a struct-typed field counts with its own sum),
as long as the running sum stays within the range of `int`. -/
theorem struct_size_is_naive_sum (env : Env) (fuel : Nat) (S : String) (decl : NodeStruct)
    (sizes : List Int)
    (hS : env.structTable.lookup S = some decl)
    (hR : env.toReplace.lookup S = none) (hA : env.aliasTypes.lookup S = none)
    (hsizes : List.Forall₂ (fun ty s => getSize env fuel ty = .ok s) (varTypes decl.elements) sizes)
    (hrange : ∀ n, n ≤ sizes.length → inRange ((sizes.take n).sum)) :
    getSize env (fuel + 1) (.TypeStruct S []) = .ok sizes.sum := by
  have hsum := sumFields_eq (getSize env fuel) decl.elements sizes 0 hsizes
    (by intro n hn; simpa using hrange n hn)
  simp [getSize, resolve_struct_self env fuel S [] hR hA, bind_ok,
    structDecl_registered env S decl hS, hsum]

/-- C1, the two layouts of the specification: `{int a; char b; double c;}` has
size 32 + 8 + 64 = 104, and `{int a; S b;}` has size 32 + 104 = 136. -/
theorem struct_size_is_naive_sum_witness :
    getSize layoutEnv 2 (.TypeStruct "S" []) = .ok 104 ∧
    getSize layoutEnv 3 (.TypeStruct "T" []) = .ok 136 :=
  ⟨struct_size_is_naive_sum layoutEnv 1 "S" _ [32, 8, 64] rfl rfl rfl
      (.cons rfl (.cons rfl (.cons rfl .nil))) (by decide),
   struct_size_is_naive_sum layoutEnv 2 "T" _ [32, 104] rfl rfl rfl
      (.cons rfl (.cons rfl .nil)) (by decide)⟩

/-- The loop of isSimple answers true exactly when every NodeVar type is a TypeBasic. -/
theorem allBasic_iff (elements : List Element) :
    allBasic elements = true ↔ ∀ ty ∈ varTypes elements, ∃ type, ty = Ty.TypeBasic type := by
  induction elements with
  | nil => simp [allBasic, varTypes]
  | cons e rest ih =>
      cases e with
      | null => simpa [allBasic, varTypes] using ih
      | other node => simpa [allBasic, varTypes] using ih
      | NodeVar type =>
          cases type <;> simp [allBasic, varTypes, ih]

/-- C2, as amended: for a struct name `S` registered in the struct table with
declaration `decl`, `S` being a key of neither the substitution table nor the
alias table (no type arguments), `Struct(S).isSimple()` always answers, and it
answers true if and only if every NodeVar element of `decl` has a TypeBasic as
its type. -/
theorem isSimple_iff_all_basic (env : Env) (fuel : Nat) (S : String) (decl : NodeStruct)
    (hS : env.structTable.lookup S = some decl)
    (hR : env.toReplace.lookup S = none) (hA : env.aliasTypes.lookup S = none) :
    (isSimple env fuel S [] = .ok true ↔
      ∀ ty ∈ varTypes decl.elements, ∃ type, ty = Ty.TypeBasic type) ∧
    (isSimple env fuel S [] = .ok false ↔
      ¬ ∀ ty ∈ varTypes decl.elements, ∃ type, ty = Ty.TypeBasic type) := by
  have h : isSimple env fuel S [] = .ok (allBasic decl.elements) := by
    simp [isSimple, resolve_struct_self env fuel S [] hR hA, bind_ok,
      structDecl_registered env S decl hS, pure_eq_ok]
  rw [h, ← allBasic_iff]
  cases allBasic decl.elements <;> simp

/-- C2, the two structs of the specification: `{int a; char b; double c;}` is
simple and `{int a; S b;}` is not. -/
theorem isSimple_iff_all_basic_witness :
    isSimple layoutEnv 0 "S" [] = .ok true ∧ isSimple layoutEnv 0 "T" [] = .ok false :=
  ⟨(isSimple_iff_all_basic layoutEnv 0 "S" _ rfl rfl rfl).1.2 (by simp [varTypes]),
   (isSimple_iff_all_basic layoutEnv 0 "T" _ rfl rfl rfl).2.2 (by simp [varTypes])⟩

/-- The preamble on a struct name that is also an alias of `int`. -/
theorem resolve_shadowEnv (fuel : Nat) :
    resolve shadowEnv (fuel + 1) (.TypeStruct "S" []) = .ok (.TypeBasic (some .Int)) :=
  resolve_mono shadowEnv 1 (.TypeStruct "S" []) (.TypeBasic (some .Int)) rfl (fuel + 1)
    (by omega)

/-- C2 fails as stated: `S` is registered in the struct table with the fields
`{int a; int* b;}`, the second of which is no TypeBasic, and `S` is also a key
of the alias table (`aliasTypes["S"] = Basic(Int)`); the preamble resolves
`Struct("S")` to `Basic(Int)` and `isSimple()` answers true. -/
theorem isSimple_true_through_alias :
    shadowEnv.structTable.lookup "S" =
      some ⟨[.NodeVar (.TypeBasic (some .Int)),
             .NodeVar (.TypePointer (.TypeBasic (some .Int)))]⟩ ∧
    (∀ fuel, isSimple shadowEnv (fuel + 1) "S" [] = .ok true) ∧
    ¬ ∀ ty ∈ varTypes [.NodeVar (.TypeBasic (some .Int)),
        .NodeVar (.TypePointer (.TypeBasic (some .Int)))],
      ∃ type, ty = Ty.TypeBasic type := by
  refine ⟨rfl, ?_, ?_⟩
  · intro fuel
    simp only [isSimple, resolve_shadowEnv, bind_ok]
    rfl
  · intro h
    obtain ⟨type, ht⟩ := h (.TypePointer (.TypeBasic (some .Int))) (by simp [varTypes])
    cases ht

/-! ## Alias chains -/

/-- The alias loop follows a chain to its end. -/
theorem chase_alias_chain (env : Env) (n : String) (k : Nat) (r : Ty) (key : String)
    (hchain : AliasChain env n k r)
    (hkey : toString env r = .ok key) (hend : env.aliasTypes.lookup key = none) :
    ∀ (types : List Ty) (fuel : Nat), k ≤ fuel →
      chase env env.aliasTypes fuel (.TypeStruct n types) = .ok r := by
  induction hchain with
  | last n r h =>
      intro types fuel hk
      obtain ⟨fuel, rfl⟩ : ∃ c, fuel = c + 1 := ⟨fuel - 1, by omega⟩
      rw [chase_step env _ fuel _ r n (by simp [toString]) h]
      exact chase_stop env _ fuel r key hkey hend
  | step n m tys k r h _ ih =>
      intro types fuel hk
      obtain ⟨fuel, rfl⟩ : ∃ c, fuel = c + 1 := ⟨fuel - 1, by omega⟩
      rw [chase_step env _ fuel _ _ n (by simp [toString]) h]
      exact ih hkey tys fuel (by omega)

/-- C3, as amended: alias transitivity. When a chain of `k` lookups in the alias
table leads from the name `A` through TypeStruct entries to a term `r` that is
no TypeStruct and whose printed form is no alias key, and `A` is no key of the
substitution table, the preamble resolves `Struct(A)` to `r`, and
`Struct(A).size()` is `r.size()`: once `r.size()` is answered within `m` nested
calls, `Struct(A).size()` gives the same answer with any bound above `k` and `m`. -/
theorem alias_chain_size (env : Env) (A : String) (types : List Ty) (k : Nat) (r : Ty)
    (key : String) (s : Int) (m fuel : Nat)
    (hchain : AliasChain env A k r)
    (hR : env.toReplace.lookup A = none)
    (hr : ∀ name tys, r ≠ .TypeStruct name tys)
    (hkey : toString env r = .ok key) (hend : env.aliasTypes.lookup key = none)
    (hsize : getSize env m r = .ok s) (hk : k ≤ fuel) (hm : m ≤ fuel) :
    resolve env fuel (.TypeStruct A types) = .ok r ∧
    getSize env (fuel + 1) (.TypeStruct A types) = .ok s := by
  have hres : resolve env fuel (.TypeStruct A types) = .ok r := by
    simp only [resolve, bind_eq_ok]
    exact ⟨_, chase_stop env _ fuel _ A (by simp [toString]) hR,
      chase_alias_chain env A k r key hchain hkey hend types fuel hk⟩
  refine ⟨hres, ?_⟩
  have hs := getSize_mono env m r s hsize fuel hm
  simp only [getSize, hres, bind_ok]
  cases r with
  | TypeStruct name tys => exact absurd rfl (hr name tys)
  | _ => exact hs

/-- C3, the case of the specification: with `alias A = B` and `alias B = int`,
`Struct("A")` resolves to `Basic(Int)` and its size is 32. -/
theorem alias_chain_size_witness :
    resolve aliasEnv 2 (.TypeStruct "A" []) = .ok (.TypeBasic (some .Int)) ∧
    getSize aliasEnv 3 (.TypeStruct "A" []) = .ok 32 :=
  alias_chain_size aliasEnv "A" [] 2 (.TypeBasic (some .Int)) "int" 32 1 2
    (.step "A" "B" [] 1 _ rfl (.last "B" _ rfl)) rfl (by intro name tys h; cases h)
    rfl rfl rfl (by decide) (by decide)

/-- C3 fails as stated: the alias table holds the chain `A -> B -> int`, whose
end `Basic(Int)` is no TypeStruct, prints as no alias key and has size 32, but
`A` is also a key of the substitution table (`toReplace["A"] = Basic(Long)`);
the substitution loop runs first, and `Struct("A").size()` is 64. -/
theorem substituted_chain_start_size :
    AliasChain substitutedEnv "A" 2 (.TypeBasic (some .Int)) ∧
    toString substitutedEnv (.TypeBasic (some .Int)) = .ok "int" ∧
    substitutedEnv.aliasTypes.lookup "int" = none ∧
    getSize substitutedEnv 1 (.TypeBasic (some .Int)) = .ok 32 ∧
    (∀ fuel, getSize substitutedEnv (fuel + 2) (.TypeStruct "A" []) = .ok 64) ∧
    (∀ fuel, getSize substitutedEnv fuel (.TypeStruct "A" []) ≠ .ok 32) := by
  have h64 : ∀ fuel, getSize substitutedEnv (fuel + 2) (.TypeStruct "A" []) = .ok 64 := by
    intro fuel
    have hr : resolve substitutedEnv (fuel + 1) (.TypeStruct "A" []) =
        .ok (.TypeBasic (some .Long)) :=
      resolve_mono substitutedEnv 1 (.TypeStruct "A" []) (.TypeBasic (some .Long)) rfl
        (fuel + 1) (by omega)
    simp only [getSize, hr, bind_ok]
    rfl
  refine ⟨.step "A" "B" [] 1 _ rfl (.last "B" _ rfl), rfl, rfl, rfl, h64, ?_⟩
  intro fuel h
  have h2 := getSize_mono substitutedEnv fuel _ 32 h (fuel + 2) (by omega)
  rw [h64 fuel] at h2
  injection h2 with h3
  exact absurd h3 (by decide)

/-! ## The preamble and the loop of the specification -/

/-- The loop stops on a term whose printed form is no key of the table. -/
theorem chase_end (env : Env) (table : List (String × Ty)) :
    ∀ (a : Nat) (t r : Ty), chase env table a t = .ok r →
      ∃ key, toString env r = .ok key ∧ table.lookup key = none := by
  intro a
  induction a with
  | zero =>
      intro t r h
      simp only [chase, bind_eq_ok] at h
      obtain ⟨key, hk, h⟩ := h
      cases hl : table.lookup key with
      | none =>
          rw [hl] at h
          simp only [pure_eq_ok] at h
          rw [← Except.ok.inj h]
          exact ⟨key, hk, hl⟩
      | some next => rw [hl] at h; simp at h
  | succ a ih =>
      intro t r h
      simp only [chase, bind_eq_ok] at h
      obtain ⟨key, hk, h⟩ := h
      cases hl : table.lookup key with
      | none =>
          rw [hl] at h
          simp only [pure_eq_ok] at h
          rw [← Except.ok.inj h]
          exact ⟨key, hk, hl⟩
      | some next => rw [hl] at h; exact ih next r h

/-- The loop ends on the term it started from or on an entry of the table. -/
theorem chase_value (env : Env) (table : List (String × Ty)) :
    ∀ (a : Nat) (t r : Ty), chase env table a t = .ok r →
      r = t ∨ ∃ name, table.lookup name = some r := by
  intro a
  induction a with
  | zero =>
      intro t r h
      simp only [chase, bind_eq_ok] at h
      obtain ⟨key, hk, h⟩ := h
      cases hl : table.lookup key with
      | none =>
          rw [hl] at h
          simp only [pure_eq_ok] at h
          exact Or.inl (Except.ok.inj h).symm
      | some next => rw [hl] at h; simp at h
  | succ a ih =>
      intro t r h
      simp only [chase, bind_eq_ok] at h
      obtain ⟨key, hk, h⟩ := h
      cases hl : table.lookup key with
      | none =>
          rw [hl] at h
          simp only [pure_eq_ok] at h
          exact Or.inl (Except.ok.inj h).symm
      | some next =>
          rw [hl] at h
          rcases ih next r h with h1 | h1
          · exact Or.inr ⟨key, by rw [hl, h1]⟩
          · exact Or.inr h1

theorem lookup_mem {β : Type} (l : List (String × β)) (name : String) (v : β)
    (h : l.lookup name = some v) : ∃ k, (k, v) ∈ l := by
  induction l with
  | nil => simp [List.lookup] at h
  | cons p rest ih =>
      obtain ⟨k, w⟩ := p
      simp only [List.lookup] at h
      split at h
      · exact ⟨k, by rw [← Option.some.inj h]; exact List.mem_cons_self _ _⟩
      · obtain ⟨k2, hk2⟩ := ih h
        exact ⟨k2, List.mem_cons_of_mem _ hk2⟩

/-- What `aliasesAvoidSubstitution` says of each entry. -/
theorem aliases_avoid (env : Env) (hsep : aliasesAvoidSubstitution env = true)
    (name : String) (v : Ty) (key : String)
    (hv : env.aliasTypes.lookup name = some v) (hk : toString env v = .ok key) :
    env.toReplace.lookup key = none := by
  obtain ⟨k, hmem⟩ := lookup_mem env.aliasTypes name v hv
  have h := (List.all_eq_true.mp hsep) (k, v) hmem
  simp only [hk] at h
  simpa using h

/-- From a term that is no substitution key on, the loop of the specification
is the alias loop. -/
theorem resolveSpec_eq_chase (env : Env) (hsep : aliasesAvoidSubstitution env = true) :
    ∀ (fuel : Nat) (t : Ty),
      (∀ key, toString env t = .ok key → env.toReplace.lookup key = none) →
      resolveSpec env fuel t = chase env env.aliasTypes fuel t := by
  intro fuel
  induction fuel with
  | zero =>
      intro t ht
      cases hk : toString env t with
      | error e => simp [resolveSpec, chase, hk, bind_error]
      | ok key =>
          simp only [resolveSpec, chase, hk, bind_ok, ht key hk]
          cases env.aliasTypes.lookup key <;> rfl
  | succ fuel ih =>
      intro t ht
      cases hk : toString env t with
      | error e => simp [resolveSpec, chase, hk, bind_error]
      | ok key =>
          simp only [resolveSpec, chase, hk, bind_ok, ht key hk]
          cases hl : env.aliasTypes.lookup key with
          | none => rfl
          | some next =>
              exact ih next (fun key2 hk2 => aliases_avoid env hsep key next key2 hl hk2)

/-- The preamble gives what the loop of the specification gives. -/
theorem resolve_of_resolveSpec (env : Env) (hsep : aliasesAvoidSubstitution env = true) :
    ∀ (fuel : Nat) (t r : Ty), resolveSpec env fuel t = .ok r → resolve env fuel t = .ok r := by
  intro fuel
  induction fuel with
  | zero =>
      intro t r h
      have h0 := h
      simp only [resolveSpec, bind_eq_ok] at h
      obtain ⟨key, hk, h⟩ := h
      cases hR : env.toReplace.lookup key with
      | some next => rw [hR] at h; simp at h
      | none =>
          have ht : ∀ key, toString env t = .ok key → env.toReplace.lookup key = none := by
            intro key2 hk2
            rw [hk] at hk2
            rw [← Except.ok.inj hk2]
            exact hR
          rw [resolveSpec_eq_chase env hsep 0 t ht] at h0
          simp only [resolve, bind_eq_ok]
          exact ⟨t, chase_stop env _ 0 t key hk hR, h0⟩
  | succ fuel ih =>
      intro t r h
      have h0 := h
      simp only [resolveSpec, bind_eq_ok] at h
      obtain ⟨key, hk, h⟩ := h
      cases hR : env.toReplace.lookup key with
      | some next =>
          rw [hR] at h
          have h1 := ih next r h
          simp only [resolve, bind_eq_ok] at h1 ⊢
          obtain ⟨t1, h2, h3⟩ := h1
          refine ⟨t1, ?_, chase_mono env _ fuel t1 r h3 (fuel + 1) (by omega)⟩
          rw [chase_step env _ fuel t next key hk hR]
          exact h2
      | none =>
          have ht : ∀ key, toString env t = .ok key → env.toReplace.lookup key = none := by
            intro key2 hk2
            rw [hk] at hk2
            rw [← Except.ok.inj hk2]
            exact hR
          rw [resolveSpec_eq_chase env hsep (fuel + 1) t ht] at h0
          simp only [resolve, bind_eq_ok]
          exact ⟨t, chase_stop env _ (fuel + 1) t key hk hR, h0⟩

/-- The loop of the specification gives what the two loops of the preamble give. -/
theorem resolveSpec_of_chases (env : Env) (hsep : aliasesAvoidSubstitution env = true) :
    ∀ (a : Nat) (t t1 : Ty), chase env env.toReplace a t = .ok t1 →
      ∀ (b : Nat) (r : Ty), chase env env.aliasTypes b t1 = .ok r →
        resolveSpec env (a + b) t = .ok r := by
  have stop : ∀ (n : Nat) (t : Ty) (key : String), toString env t = .ok key →
      env.toReplace.lookup key = none → ∀ (b : Nat) (r : Ty),
      chase env env.aliasTypes b t = .ok r → b ≤ n → resolveSpec env n t = .ok r := by
    intro n t key hk hR b r h hb
    have ht : ∀ key, toString env t = .ok key → env.toReplace.lookup key = none := by
      intro key2 hk2
      rw [hk] at hk2
      rw [← Except.ok.inj hk2]
      exact hR
    rw [resolveSpec_eq_chase env hsep n t ht]
    exact chase_mono env _ b t r h n hb
  intro a
  induction a with
  | zero =>
      intro t t1 h b r h2
      simp only [chase, bind_eq_ok] at h
      obtain ⟨key, hk, h⟩ := h
      cases hR : env.toReplace.lookup key with
      | some next => rw [hR] at h; simp at h
      | none =>
          rw [hR] at h
          simp only [pure_eq_ok] at h
          rw [← Except.ok.inj h] at h2
          exact stop _ t key hk hR b r h2 (by omega)
  | succ a ih =>
      intro t t1 h b r h2
      simp only [chase, bind_eq_ok] at h
      obtain ⟨key, hk, h⟩ := h
      cases hR : env.toReplace.lookup key with
      | some next =>
          rw [hR] at h
          have h3 := ih next t1 h b r h2
          have e : a + 1 + b = (a + b) + 1 := by omega
          rw [e]
          simp only [resolveSpec, hk, bind_ok, hR]
          exact h3
      | none =>
          rw [hR] at h
          simp only [pure_eq_ok] at h
          rw [← Except.ok.inj h] at h2
          exact stop _ t key hk hR b r h2 (by omega)

/-- C4, as amended: the preamble of `Struct.size()`, `isSimple()` and
`fieldCount()` runs the substitution loop to its end and then the alias loop to
its end. The printed form of the type it resolves to is never a key of the
alias table. When no entry of the alias table prints as a key of the
substitution table, that printed form is a key of neither table, and the
preamble and the loop of the specification resolve to the same type: what the
preamble gives within `fuel` rounds of each loop, the loop of the specification
gives within `fuel + fuel` replacements, and what the loop of the specification
gives within `fuel` replacements, the preamble gives within `fuel` rounds. -/
theorem resolve_refines_spec (env : Env) (fuel : Nat) (t r : Ty) :
    (resolve env fuel t = .ok r →
      ∃ key, toString env r = .ok key ∧ env.aliasTypes.lookup key = none) ∧
    (aliasesAvoidSubstitution env = true →
      (resolve env fuel t = .ok r →
        resolveSpec env (fuel + fuel) t = .ok r ∧
        ∃ key, toString env r = .ok key ∧ env.toReplace.lookup key = none ∧
          env.aliasTypes.lookup key = none) ∧
      (resolveSpec env fuel t = .ok r → resolve env fuel t = .ok r)) := by
  refine ⟨?_, fun hsep => ⟨?_, resolve_of_resolveSpec env hsep fuel t r⟩⟩
  · intro h
    simp only [resolve, bind_eq_ok] at h
    obtain ⟨t1, _, h2⟩ := h
    exact chase_end env _ fuel t1 r h2
  · intro h
    simp only [resolve, bind_eq_ok] at h
    obtain ⟨t1, h1, h2⟩ := h
    refine ⟨resolveSpec_of_chases env hsep fuel t t1 h1 fuel r h2, ?_⟩
    obtain ⟨key, hk, hA⟩ := chase_end env _ fuel t1 r h2
    refine ⟨key, hk, ?_, hA⟩
    rcases chase_value env _ fuel t1 r h2 with h3 | ⟨name, h3⟩
    · obtain ⟨key1, hk1, hR⟩ := chase_end env _ fuel t t1 h1
      rw [h3, hk1] at hk
      rw [← Except.ok.inj hk]
      exact hR
    · exact aliases_avoid env hsep name r key h3 hk

/-- C4, on tables where the amended statement applies: the substitution table
maps `T` to `A`, and `alias A = B; alias B = int;`. Both loops resolve
`Struct("T")` to `Basic(Int)`, whose printed form is a key of neither table. -/
theorem resolve_refines_spec_witness :
    resolveSpec instEnv 6 (.TypeStruct "T" []) = .ok (.TypeBasic (some .Int)) ∧
    ∃ key, toString instEnv (.TypeBasic (some .Int)) = .ok key ∧
      instEnv.toReplace.lookup key = none ∧ instEnv.aliasTypes.lookup key = none :=
  ((resolve_refines_spec instEnv 3 (.TypeStruct "T" []) (.TypeBasic (some .Int))).2 rfl).1 rfl

/-- C4 fails as stated: with `aliasTable["A"] = Struct("T")` and
`substitutionTable["T"] = Basic(Int)`, the loop of the specification resolves
`Struct("A")` to `Basic(Int)`, but the preamble stops at `Struct("T")`, whose
printed form is a key of the substitution table, and `Struct("A").size()`
reports the undefined structure `T` whatever the bound; it is never 32. -/
theorem resolve_stops_on_substitution_key :
    resolveSpec substEnv 2 (.TypeStruct "A" []) = .ok (.TypeBasic (some .Int)) ∧
    resolve substEnv 1 (.TypeStruct "A" []) = .ok (.TypeStruct "T" []) ∧
    substEnv.toReplace.lookup "T" = some (.TypeBasic (some .Int)) ∧
    getSize substEnv 2 (.TypeStruct "A" []) =
      .error (.diagnostic "undefined structure 'T'!" (-1)) ∧
    ∀ fuel, getSize substEnv fuel (.TypeStruct "A" []) ≠ .ok 32 := by
  refine ⟨rfl, rfl, rfl, rfl, ?_⟩
  intro fuel h
  have h2 := getSize_mono substEnv fuel _ 32 h (fuel + 2) (by omega)
  have h3 : getSize substEnv (fuel + 2) (.TypeStruct "A" []) =
      .error (.diagnostic "undefined structure 'T'!" (-1)) := by
    have hr : resolve substEnv (fuel + 1) (.TypeStruct "A" []) = .ok (.TypeStruct "T" []) :=
      resolve_mono substEnv 1 (.TypeStruct "A" []) (.TypeStruct "T" []) rfl (fuel + 1) (by omega)
    simp only [getSize, hr, bind_ok]
    rfl
  rw [h3] at h2
  cases h2

/-! ## The diagnostic of an undefined struct -/

theorem structDecl_undefined (env : Env) (name : String) (types : List Ty)
    (hS : env.structTable.lookup name = none) :
    structDecl env name types =
      .error (.diagnostic ("undefined structure '" ++ name ++ "'!") (-1)) := by
  simp [structDecl, hS, generatorError]

/-- C5, as amended: for a name `N` that is a key of none of the struct table,
the alias table and the substitution table, `Struct(N).size()`, `isSimple()`
and `fieldCount()` each end in the diagnostic sink, called with the message
`undefined structure '<N>'!` (the closing exclamation mark included) and the
location -1; no value is returned. -/
theorem undefined_struct_diagnostic (env : Env) (fuel : Nat) (N : String)
    (hS : env.structTable.lookup N = none)
    (hR : env.toReplace.lookup N = none) (hA : env.aliasTypes.lookup N = none) :
    getSize env (fuel + 1) (.TypeStruct N []) =
      .error (.diagnostic ("undefined structure '" ++ N ++ "'!") (-1)) ∧
    isSimple env fuel N [] =
      .error (.diagnostic ("undefined structure '" ++ N ++ "'!") (-1)) ∧
    getElCount env fuel N [] =
      .error (.diagnostic ("undefined structure '" ++ N ++ "'!") (-1)) := by
  have h := resolve_struct_self env fuel N [] hR hA
  have hd := structDecl_undefined env N [] hS
  refine ⟨?_, ?_, ?_⟩
  · simp [getSize, h, bind_ok, hd, bind_error]
  · simp [isSimple, h, bind_ok, hd, bind_error]
  · simp [getElCount, h, bind_ok, hd, bind_error]

/-- C5, the name of the specification: the three queries on `Struct("Nope")`
report `undefined structure 'Nope'!`. -/
theorem undefined_struct_diagnostic_witness :
    getSize emptyEnv 1 (.TypeStruct "Nope" []) =
      .error (.diagnostic "undefined structure 'Nope'!" (-1)) ∧
    isSimple emptyEnv 0 "Nope" [] =
      .error (.diagnostic "undefined structure 'Nope'!" (-1)) ∧
    getElCount emptyEnv 0 "Nope" [] =
      .error (.diagnostic "undefined structure 'Nope'!" (-1)) :=
  undefined_struct_diagnostic emptyEnv 0 "Nope" rfl rfl rfl

/-- C5 fails as stated: the message passed for `Struct("Nope").size()` is
`undefined structure 'Nope'!`, which is not the text `undefined structure 'Nope'`. -/
theorem undefined_struct_message_differs :
    getSize emptyEnv 1 (.TypeStruct "Nope" []) =
      .error (.diagnostic "undefined structure 'Nope'!" (-1)) ∧
    getSize emptyEnv 1 (.TypeStruct "Nope" []) ≠
      .error (.diagnostic "undefined structure 'Nope'" (-1)) := by
  refine ⟨rfl, ?_⟩
  intro h
  have h2 : getSize emptyEnv 1 (.TypeStruct "Nope" []) =
      .error (.diagnostic "undefined structure 'Nope'!" (-1)) := rfl
  rw [h2] at h
  injection h with h
  injection h with h3 _
  exact absurd h3 (by decide)

/-! ## Primitive sizes -/

/-- C6: for each of the 15 primitive tags, `Basic(tag).size()` and
`Basic(tag).isFloat()` are the entries of the table of section 3.1, and
`nameToType` of the tag's name is the `Basic` of that tag, so its size is the
table entry too. -/
theorem basic_size_matches_table (env : Env) (fuel : Nat) (tag : BasicType) :
    getSize env (fuel + 1) (.TypeBasic (some tag)) = .ok (specSize tag) ∧
    TypeBasic.isFloat (some tag) = specIsFloat tag ∧
    getType (specName tag) = .TypeBasic (some tag) ∧
    getSize env (fuel + 1) (getType (specName tag)) = .ok (specSize tag) := by
  cases tag <;> exact ⟨rfl, rfl, rfl, rfl⟩

/-! ## Pointer-like sizes -/

/-- C7, what the code answers: `TypePointer::getSize` and `TypeFunc::getSize`
return 8 for every inner type, result type, argument list and variadic flag,
while `Basic(Long)` is 64; so the size of `Pointer(Basic(Int))` is not 64. -/
theorem pointer_size_is_eight :
    (∀ (env : Env) (fuel : Nat) (t : Ty), getSize env (fuel + 1) (.TypePointer t) = .ok 8) ∧
    (∀ (env : Env) (fuel : Nat) (main : Ty) (args : List Ty) (isVarArg : Bool),
      getSize env (fuel + 1) (.TypeFunc main args isVarArg) = .ok 8) ∧
    getSize emptyEnv 1 (.TypeBasic (some .Long)) = .ok 64 ∧
    getSize emptyEnv 1 (.TypePointer (.TypeBasic (some .Int))) ≠ .ok 64 := by
  refine ⟨fun _ _ _ => rfl, fun _ _ _ _ _ => rfl, rfl, ?_⟩
  intro h
  have h2 : getSize emptyEnv 1 (.TypePointer (.TypeBasic (some .Int))) = .ok 8 := rfl
  rw [h2] at h
  injection h with h
  exact absurd h (by decide)

/-! ## The element type of a pointer -/

/-- The element type of `Const^k(Void)` is the TypeVoid inside. -/
theorem getElType_constWrap_void (k extra : Nat) :
    getElType (k + 1 + extra) (constWrap k .TypeVoid) = .ok (.TypeVoid, constWrap k .TypeVoid) := by
  induction k with
  | zero =>
      have e : 0 + 1 + extra = extra + 1 := by omega
      rw [e]
      rfl
  | succ k ih =>
      have e : k + 1 + 1 + extra = (k + 1 + extra) + 1 := by omega
      rw [e]
      simp only [constWrap, getElType, ih, bind_ok, pure_eq_ok]

/-- C8: the pointer-void rule. For every number `k` of TypeConst wrappers,
`Pointer(Const^k(Void)).getElementType()` returns a `Basic(Char)`, whose
`toString()` is "char", with any bound of at least `k + 2` calls. -/
theorem pointer_void_rule (env : Env) (k extra : Nat) :
    getElType (k + 2 + extra) (.TypePointer (constWrap k .TypeVoid)) =
      .ok (.TypeBasic (some .Char), .TypePointer .TypeVoid) ∧
    toString env (.TypeBasic (some .Char)) = .ok "char" := by
  refine ⟨?_, rfl⟩
  cases k with
  | zero =>
      have e : 0 + 2 + extra = (extra + 1) + 1 := by omega
      rw [e]
      rfl
  | succ k =>
      have e : k + 1 + 2 + extra = (k + 1 + 1 + extra) + 1 := by omega
      have e2 : k + 1 + 1 + extra = (k + 1 + extra) + 1 := by omega
      rw [e]
      simp only [constWrap, getElType, bind_ok]
      rw [show Ty.TypeConst (constWrap k .TypeVoid) = constWrap (k + 1) .TypeVoid from rfl,
        getElType_constWrap_void (k + 1) extra, e2]
      simp only [getElType, bind_ok]

/-! ## check and the alias table -/

/-- TypeStruct::check on a name whose alias prints as no alias key. -/
theorem struct_check_alias (env : Env) (fuel : Nat) (n : String) (types : List Ty) (r : Ty)
    (key : String) (parent : Option Ty)
    (hn : env.aliasTypes.lookup n = some r)
    (hkey : toString env r = .ok key) (hend : env.aliasTypes.lookup key = none) :
    TypeStruct.check env fuel n types parent =
      match parent with
      | none => .ok ⟨some r, .TypeStruct n types, none⟩
      | some (.TypePointer _) => .ok ⟨none, .TypeStruct n types, some r⟩
      | some (.TypeArray _ _) => .ok ⟨none, .TypeStruct n types, some r⟩
      | some (.TypeConst _) => .ok ⟨none, .TypeStruct n types, some r⟩
      | some _ => .ok ⟨none, .TypeStruct n types, none⟩ := by
  simp only [TypeStruct.check, hn, chase_stop env _ fuel r key hkey hend, bind_ok]
  rfl

/-- C9, as amended: for a name `n` with `aliasTable[n] = r`, where the printed
form of `r` is no alias key, `Pointer(Struct(n)).check(null)` leaves the
pointer with `r` as its `instance`; and when `r` is neither a Const nor Void,
`getElementType()` of that pointer is `r`, so its `toString()` is `r.toString()`. -/
theorem pointer_check_rebinds_alias (env : Env) (fuel extra : Nat) (n : String)
    (types : List Ty) (r : Ty) (key : String)
    (hn : env.aliasTypes.lookup n = some r)
    (hkey : toString env r = .ok key) (hend : env.aliasTypes.lookup key = none) :
    check env fuel (.TypePointer (.TypeStruct n types)) none =
      .ok ⟨none, .TypePointer r, none⟩ ∧
    ((∀ i, r ≠ .TypeConst i) → r ≠ .TypeVoid →
      getElType (extra + 1) (.TypePointer r) = .ok (r, .TypePointer r)) := by
  constructor
  · have h := struct_check_alias env fuel n types r key
      (some (.TypePointer (.TypeStruct n types))) hn hkey hend
    simp only [check, h, bind_ok]
    rfl
  · intro hc hv
    cases r with
    | TypeConst i => exact absurd rfl (hc i)
    | TypeVoid => exact absurd rfl hv
    | _ => rfl

/-- C9, the scenario of the specification: with `aliasTable["MyInt"] = Basic(Int)`,
`Pointer(Struct("MyInt"))` after `check(null)` is `Pointer(Basic(Int))`, and the
`toString()` of its element type is "int". -/
theorem pointer_check_rebinds_alias_witness :
    check myIntEnv 0 (.TypePointer (.TypeStruct "MyInt" [])) none =
      .ok ⟨none, .TypePointer (.TypeBasic (some .Int)), none⟩ ∧
    getElType 1 (.TypePointer (.TypeBasic (some .Int))) =
      .ok (.TypeBasic (some .Int), .TypePointer (.TypeBasic (some .Int))) ∧
    toString myIntEnv (.TypeBasic (some .Int)) = .ok "int" :=
  have h := pointer_check_rebinds_alias myIntEnv 0 0 "MyInt" [] (.TypeBasic (some .Int)) "int"
    rfl rfl rfl
  ⟨h.1, h.2 (by intro i hi; cases hi) (by intro hv; cases hv), rfl⟩

/-- C9 fails as stated: with `aliasTable["V"] = Void` (and "void" no alias key),
`Pointer(Struct("V"))` after `check(null)` has Void as its `instance`, and the
`toString()` of its element type is "char", while `r.toString()` is "void". -/
theorem pointer_to_void_alias_prints_char :
    voidAliasEnv.aliasTypes.lookup "V" = some .TypeVoid ∧
    toString voidAliasEnv .TypeVoid = .ok "void" ∧
    voidAliasEnv.aliasTypes.lookup "void" = none ∧
    check voidAliasEnv 0 (.TypePointer (.TypeStruct "V" [])) none =
      .ok ⟨none, .TypePointer .TypeVoid, none⟩ ∧
    getElType 1 (.TypePointer .TypeVoid) =
      .ok (.TypeBasic (some .Char), .TypePointer .TypeVoid) ∧
    toString voidAliasEnv (.TypeBasic (some .Char)) = .ok "char" ∧
    "char" ≠ "void" :=
  ⟨rfl, rfl, rfl, rfl, rfl, rfl, by decide⟩

/-- C10, what the code does: with `aliasTable["MyInt"] = Basic(Int)`,
`Const(Struct("MyInt")).check(null)` leaves the Const with `Struct("MyInt")` as
its `instance`, printed "MyInt" and not "int", whatever the bound of the alias
loop; the same call on `Pointer(Struct("MyInt"))` and on an Array of
`Struct("MyInt")` puts `Basic(Int)` in the slot. -/
theorem const_check_keeps_struct :
    (∀ fuel, check myIntEnv fuel (.TypeConst (.TypeStruct "MyInt" [])) none =
      .ok ⟨none, .TypeConst (.TypeStruct "MyInt" []), none⟩) ∧
    toString myIntEnv (.TypeConst (.TypeStruct "MyInt" [])) = .ok "MyInt" ∧
    toString myIntEnv (.TypeBasic (some .Int)) = .ok "int" ∧
    check myIntEnv 0 (.TypePointer (.TypeStruct "MyInt" [])) none =
      .ok ⟨none, .TypePointer (.TypeBasic (some .Int)), none⟩ ∧
    check myIntEnv 0 (.TypeArray (.NodeInt 4) (.TypeStruct "MyInt" [])) none =
      .ok ⟨none, .TypeArray (.NodeInt 4) (.TypeBasic (some .Int)), none⟩ := by
  refine ⟨?_, rfl, rfl, rfl, rfl⟩
  intro fuel
  have h := struct_check_alias myIntEnv fuel "MyInt" [] (.TypeBasic (some .Int)) "int" none
    rfl rfl rfl
  simp only [check, h, bind_ok]
  rfl

/-! ## A second check -/

theorem check_pointer_eq (env : Env) (fuel : Nat) (i : Ty) (p : Option Ty) :
    check env fuel (.TypePointer i) p =
      (check env fuel i (some (.TypePointer i)) >>= fun c =>
        pure ⟨none, .TypePointer c.inSlot, none⟩) := by
  cases i <;> rfl

theorem check_array_eq (env : Env) (fuel : Nat) (count : Node) (e : Ty) (p : Option Ty) :
    check env fuel (.TypeArray count e) p =
      (check env fuel e (some (.TypeArray count e)) >>= fun c =>
        pure ⟨none, .TypeArray count c.inSlot, none⟩) := by
  cases e <;> rfl

theorem check_const_eq (env : Env) (fuel : Nat) (i : Ty) (p : Option Ty) :
    check env fuel (.TypeConst i) p =
      (check env fuel i none >>= fun c => pure ⟨none, .TypeConst c.inSlot, none⟩) := by
  rfl

/-- TypeStruct::check by the class of the parent. -/
theorem struct_check_kind (env : Env) (fuel : Nat) (n : String) (types : List Ty)
    (p : Option Ty) :
    check env fuel (.TypeStruct n types) p =
      match env.aliasTypes.lookup n with
      | none => .ok ⟨none, .TypeStruct n types, none⟩
      | some first => chase env env.aliasTypes fuel first >>= fun r =>
          pure (if parentKind p = 0 then ⟨some r, .TypeStruct n types, none⟩
            else if parentKind p = 1 then ⟨none, .TypeStruct n types, some r⟩
            else ⟨none, .TypeStruct n types, none⟩) := by
  simp only [check, TypeStruct.check]
  cases env.aliasTypes.lookup n with
  | none => rfl
  | some first =>
      cases p with
      | none => rfl
      | some x => cases x <;> rfl

/-- After a successful `check`, the term left in place is left in place by a
second `check` under a parent of the same class. -/
theorem check_settles (env : Env) (fuel : Nat) (H : AliasEntriesChecked env fuel) :
    ∀ (t : Ty) (p : Option Ty) (c : Checked), check env fuel t p = .ok c →
      parentKind p ≤ 1 → ∀ p2, parentKind p2 = parentKind p → Stable env fuel c.inSlot p2
  | .TypePointer i, p, c, h, _, p2, _ => by
      rw [check_pointer_eq, bind_eq_ok] at h
      obtain ⟨ci, h1, h2⟩ := h
      obtain ⟨c2, h3, h4⟩ := check_settles env fuel H i _ ci h1 (by simp [parentKind])
        (some (.TypePointer ci.inSlot)) (by simp [parentKind])
      rw [pure_eq_ok] at h2
      rw [← Except.ok.inj h2]
      refine ⟨⟨none, .TypePointer ci.inSlot, none⟩, ?_, rfl⟩
      show check env fuel (.TypePointer ci.inSlot) p2 = _
      rw [check_pointer_eq, h3, bind_ok, h4]
      rfl
  | .TypeArray count e, p, c, h, _, p2, _ => by
      rw [check_array_eq, bind_eq_ok] at h
      obtain ⟨ci, h1, h2⟩ := h
      obtain ⟨c2, h3, h4⟩ := check_settles env fuel H e _ ci h1 (by simp [parentKind])
        (some (.TypeArray count ci.inSlot)) (by simp [parentKind])
      rw [pure_eq_ok] at h2
      rw [← Except.ok.inj h2]
      refine ⟨⟨none, .TypeArray count ci.inSlot, none⟩, ?_, rfl⟩
      show check env fuel (.TypeArray count ci.inSlot) p2 = _
      rw [check_array_eq, h3, bind_ok, h4]
      rfl
  | .TypeConst i, p, c, h, _, p2, _ => by
      rw [check_const_eq, bind_eq_ok] at h
      obtain ⟨ci, h1, h2⟩ := h
      obtain ⟨c2, h3, h4⟩ := check_settles env fuel H i none ci h1 (by simp [parentKind])
        none rfl
      rw [pure_eq_ok] at h2
      rw [← Except.ok.inj h2]
      refine ⟨⟨none, .TypeConst ci.inSlot, none⟩, ?_, rfl⟩
      show check env fuel (.TypeConst ci.inSlot) p2 = _
      rw [check_const_eq, h3, bind_ok, h4]
      rfl
  | .TypeStruct n types, p, c, h, hp, p2, hp2 => by
      rw [struct_check_kind] at h
      cases hl : env.aliasTypes.lookup n with
      | none =>
          rw [hl] at h
          rw [← Except.ok.inj h]
          refine ⟨⟨none, .TypeStruct n types, none⟩, ?_, rfl⟩
          show check env fuel (.TypeStruct n types) p2 = _
          rw [struct_check_kind, hl]
      | some first =>
          rw [hl] at h
          simp only [bind_eq_ok, pure_eq_ok] at h
          obtain ⟨r, h1, h2⟩ := h
          rw [← Except.ok.inj h2]
          by_cases h0 : parentKind p = 0
          · rw [if_pos h0]
            refine ⟨⟨some r, .TypeStruct n types, none⟩, ?_, rfl⟩
            show check env fuel (.TypeStruct n types) p2 = _
            rw [struct_check_kind, hl]
            simp only [h1, bind_ok, pure_eq_ok, if_pos (hp2.trans h0)]
          · have h1' : parentKind p = 1 := by omega
            rw [if_neg h0, if_pos h1']
            obtain ⟨key, hk, hend⟩ := chase_end env _ fuel first r h1
            have hv : ∃ name, env.aliasTypes.lookup name = some r := by
              rcases chase_value env _ fuel first r h1 with h3 | h3
              · exact ⟨n, by rw [hl, h3]⟩
              · exact h3
            obtain ⟨name, hv⟩ := hv
            exact H name r key hv hk hend p2
  | .TypeBasic _, _, _, h, _, _, _ => by rw [← Except.ok.inj h]; exact ⟨_, rfl, rfl⟩
  | .TypeAlias, _, _, h, _, _, _ => by rw [← Except.ok.inj h]; exact ⟨_, rfl, rfl⟩
  | .TypeVoid, _, _, h, _, _, _ => by rw [← Except.ok.inj h]; exact ⟨_, rfl, rfl⟩
  | .TypeTemplateMember _ _, _, _, h, _, _, _ => by rw [← Except.ok.inj h]; exact ⟨_, rfl, rfl⟩
  | .TypeTemplateMemberDefinition _ _, _, _, h, _, _, _ => by
      rw [← Except.ok.inj h]; exact ⟨_, rfl, rfl⟩
  | .TypeFuncArg _ _, _, _, h, _, _, _ => by rw [← Except.ok.inj h]; exact ⟨_, rfl, rfl⟩
  | .TypeFunc _ _ _, _, _, h, _, _, _ => by rw [← Except.ok.inj h]; exact ⟨_, rfl, rfl⟩
  | .TypeBuiltin _ _ _, _, _, h, _, _, _ => by rw [← Except.ok.inj h]; exact ⟨_, rfl, rfl⟩
  | .TypeCall _ _, _, _, h, _, _, _ => by rw [← Except.ok.inj h]; exact ⟨_, rfl, rfl⟩
  | .TypeAuto, _, _, h, _, _, _ => by rw [← Except.ok.inj h]; exact ⟨_, rfl, rfl⟩
  | .TypeLLVM _, _, _, h, _, _, _ => by rw [← Except.ok.inj h]; exact ⟨_, rfl, rfl⟩
  | .TypeVector _ _, _, _, h, _, _, _ => by rw [← Except.ok.inj h]; exact ⟨_, rfl, rfl⟩
  | .TypeDivided _ _, _, _, h, _, _, _ => by rw [← Except.ok.inj h]; exact ⟨_, rfl, rfl⟩

/-- A call `check(null)` assigns to no slot. -/
theorem check_null_slot (env : Env) (fuel : Nat) (t : Ty) (c : Checked)
    (h : check env fuel t none = .ok c) : c.inSlot = c.self := by
  cases t with
  | TypePointer i =>
      rw [check_pointer_eq, bind_eq_ok] at h
      obtain ⟨ci, _, h2⟩ := h
      rw [← Except.ok.inj h2]; rfl
  | TypeArray count e =>
      rw [check_array_eq, bind_eq_ok] at h
      obtain ⟨ci, _, h2⟩ := h
      rw [← Except.ok.inj h2]; rfl
  | TypeConst i =>
      rw [check_const_eq, bind_eq_ok] at h
      obtain ⟨ci, _, h2⟩ := h
      rw [← Except.ok.inj h2]; rfl
  | TypeStruct n types =>
      rw [struct_check_kind] at h
      cases hl : env.aliasTypes.lookup n with
      | none => rw [hl] at h; rw [← Except.ok.inj h]; rfl
      | some first =>
          rw [hl] at h
          simp only [bind_eq_ok, pure_eq_ok] at h
          obtain ⟨r, _, h2⟩ := h
          rw [← Except.ok.inj h2]; rfl
  | _ => rw [← Except.ok.inj h]; rfl

/-- The entries of the table `alias A = B; alias B = int;` that end a chain are
left as they are by `check`. -/
theorem aliasEnv_entries_checked (fuel : Nat) : AliasEntriesChecked aliasEnv fuel := by
  intro name v key hv hk hend parent
  obtain ⟨k, hmem⟩ := lookup_mem aliasEnv.aliasTypes name v hv
  simp only [aliasEnv, List.mem_cons, Prod.mk.injEq, List.mem_nil_iff, or_false] at hmem
  rcases hmem with ⟨_, rfl⟩ | ⟨_, rfl⟩
  · simp only [toString] at hk
    rw [← Except.ok.inj hk] at hend
    have hB : List.lookup "B" aliasEnv.aliasTypes = some (.TypeBasic (some .Int)) := rfl
    rw [hB] at hend
    cases hend
  · exact ⟨_, rfl, rfl⟩

/-- C11, as amended: when `check` leaves as it is every entry of the alias
table that ends a chain (an entry whose printed form is no alias key), then for
every type term `t`, once `check(null)` has been applied to `t`, a second
`check(null)` succeeds and leaves the term, hence its `toString()`, unchanged. -/
theorem second_check_is_noop (env : Env) (fuel : Nat) (t : Ty) (c : Checked)
    (H : AliasEntriesChecked env fuel) (h : check env fuel t none = .ok c) :
    ∃ c2, check env fuel c.self none = .ok c2 ∧ c2.self = c.self ∧
      toString env c2.self = toString env c.self := by
  obtain ⟨c2, h1, h2⟩ := check_settles env fuel H t none c h (by simp [parentKind]) none rfl
  rw [check_null_slot env fuel t c h] at h1 h2
  have h3 := check_null_slot env fuel c.self c2 h1
  rw [h3] at h2
  exact ⟨c2, h1, h2, by rw [h2]⟩

/-- C11 on the table `alias A = B; alias B = int;`: `check(null)` turns
`Pointer(Struct("A"))` into `Pointer(Basic(Int))`, and a second `check(null)`
leaves it so. -/
theorem second_check_is_noop_witness :
    ∃ c2, check aliasEnv 1 (.TypePointer (.TypeBasic (some .Int))) none = .ok c2 ∧
      c2.self = .TypePointer (.TypeBasic (some .Int)) ∧
      toString aliasEnv c2.self = toString aliasEnv (.TypePointer (.TypeBasic (some .Int))) :=
  second_check_is_noop aliasEnv 1 (.TypePointer (.TypeStruct "A" []))
    ⟨none, .TypePointer (.TypeBasic (some .Int)), none⟩ (aliasEnv_entries_checked 1) rfl

/-- C11 fails as stated: with `alias A = B*` and `alias B = int` (an acyclic
table), `check(null)` turns `Pointer(Struct("A"))` into
`Pointer(Pointer(Struct("B")))`, printed "B**", and a second `check(null)`
turns that into `Pointer(Pointer(Basic(Int)))`, printed "int**". -/
theorem second_check_changes_string :
    check nestedAliasEnv 2 (.TypePointer (.TypeStruct "A" [])) none =
      .ok ⟨none, .TypePointer (.TypePointer (.TypeStruct "B" [])), none⟩ ∧
    toString nestedAliasEnv (.TypePointer (.TypePointer (.TypeStruct "B" []))) = .ok "B**" ∧
    check nestedAliasEnv 2 (.TypePointer (.TypePointer (.TypeStruct "B" []))) none =
      .ok ⟨none, .TypePointer (.TypePointer (.TypeBasic (some .Int))), none⟩ ∧
    toString nestedAliasEnv (.TypePointer (.TypePointer (.TypeBasic (some .Int)))) =
      .ok "int**" ∧
    "B**" ≠ "int**" :=
  ⟨rfl, rfl, rfl, rfl, by decide⟩

/-! ## Printed forms of the primitives -/

/-- C15, what the code does: `Basic(Ucent).toString()` is "cent", the same text
as `Basic(Cent).toString()`, although the name of the tag is "ucent" and
`getType("ucent")` is `Basic(Ucent)`; each of the other 14 tags prints as its
own name. -/
theorem ucent_prints_cent :
    toString emptyEnv (.TypeBasic (some .Ucent)) = .ok "cent" ∧
    toString emptyEnv (.TypeBasic (some .Cent)) = .ok "cent" ∧
    specName .Ucent = "ucent" ∧
    getType "ucent" = .TypeBasic (some .Ucent) ∧
    "cent" ≠ "ucent" ∧
    ∀ tag, tag ≠ BasicType.Ucent →
      toString emptyEnv (.TypeBasic (some tag)) = .ok (specName tag) := by
  refine ⟨rfl, rfl, rfl, rfl, by decide, ?_⟩
  intro tag h
  cases tag <;> first | rfl | exact absurd rfl h

/-! ## What getElType unwraps and what it assigns -/

/-- C17, what the code does: with a Const under the pointer, getElType goes one
level further than without. `Pointer(Const(Pointer(Basic(Int))))` gives
`Basic(Int)` and not `Pointer(Basic(Int))`, `Pointer(Const(Array(4, Basic(Int))))`
gives `Basic(Int)` and not the Array, whatever the bound on the calls, while
`Pointer(Pointer(Basic(Int)))` gives `Pointer(Basic(Int))`. -/
theorem pointer_const_unwraps_twice :
    (∀ extra, (getElType (extra + 3)
        (.TypePointer (.TypeConst (.TypePointer (.TypeBasic (some .Int)))))).map Prod.fst =
      .ok (.TypeBasic (some .Int))) ∧
    (∀ extra, (getElType (extra + 3)
        (.TypePointer (.TypeConst (.TypeArray (.NodeInt 4) (.TypeBasic (some .Int)))))).map
          Prod.fst =
      .ok (.TypeBasic (some .Int))) ∧
    (∀ extra, (getElType (extra + 1)
        (.TypePointer (.TypePointer (.TypeBasic (some .Int))))).map Prod.fst =
      .ok (.TypePointer (.TypeBasic (some .Int)))) :=
  ⟨fun _ => rfl, fun _ => rfl, fun _ => rfl⟩

/-- C18, what the code does: TypePointer::getElType assigns to `instance`. After
the call on `Pointer(Const(Pointer(Basic(Int))))` the receiver is
`Pointer(Basic(Int))`: its `instance` is no longer the Const and its
`toString()` has gone from "int**" to "int*". After the call on
`Pointer(Const(Basic(Int)))` the receiver is `Pointer(Basic(Int))`. -/
theorem getElType_assigns_instance :
    (∀ extra, (getElType (extra + 3)
        (.TypePointer (.TypeConst (.TypePointer (.TypeBasic (some .Int)))))).map Prod.snd =
      .ok (.TypePointer (.TypeBasic (some .Int)))) ∧
    toString emptyEnv (.TypePointer (.TypeConst (.TypePointer (.TypeBasic (some .Int))))) =
      .ok "int**" ∧
    toString emptyEnv (.TypePointer (.TypeBasic (some .Int))) = .ok "int*" ∧
    "int**" ≠ "int*" ∧
    (∀ extra, (getElType (extra + 3)
        (.TypePointer (.TypeConst (.TypeBasic (some .Int))))).map Prod.snd =
      .ok (.TypePointer (.TypeBasic (some .Int)))) :=
  ⟨fun _ => rfl, rfl, rfl, by decide, fun _ => rfl⟩

/-! ## copy and the printed form -/

/-- C12: for every type term `t` of every variant, `copy(t).toString()` is
`t.toString()`; where `toString()` is not defined on `t` (an Array whose count
is no integer literal, a Divided with no part) it is not defined on the copy
either. -/
theorem copy_preserves_toString (env : Env) (nodeCopy : Node → Node) :
    ∀ t : Ty, toString env (copy nodeCopy t) = toString env t
  | .TypeBasic _ => rfl
  | .TypePointer inst => by
      simp only [copy, toString, copy_preserves_toString env nodeCopy inst]
  | .TypeArray _ element => by
      simp only [copy, toString, copy_preserves_toString env nodeCopy element]
  | .TypeAlias => rfl
  | .TypeVoid => rfl
  | .TypeConst inst => by
      simp only [copy, toString, copy_preserves_toString env nodeCopy inst]
  | .TypeStruct _ _ => by simp only [copy, toString]
  | .TypeTemplateMember type _ => by
      simp only [copy, toString, copy_preserves_toString env nodeCopy type]
  | .TypeTemplateMemberDefinition _ _ => by simp only [copy, toString]
  | .TypeFuncArg _ _ => by simp only [copy, toString]
  | .TypeFunc _ _ _ => by simp only [copy, toString]
  | .TypeBuiltin _ _ _ => by simp only [copy, toString]
  | .TypeCall _ _ => rfl
  | .TypeAuto => rfl
  | .TypeLLVM _ => rfl
  | .TypeVector _ _ => rfl
  | .TypeDivided _ _ => rfl

/-! ## copy and shared objects -/

/-- C13, what the code does: the copy of the Vector at address 2 is a new
object whose `mainType` is the address 1 of the original's Pointer, and the
copy of the Divided at address 4 keeps the addresses of `mainType` and of the
parts; the assignment that `check` makes to the `instance` of the Pointer
reached through the copy (`aliasTypes["MyInt"]`, at address 3) changes the
`toString()` of the original Vector from `<MyInt* x 4>` to `<int* x 4>`. The
copy of the Pointer at address 1 has a new object as its `instance`, and the
same assignment to that copy leaves the original printed `MyInt*`. -/
theorem vector_copy_shares_mainType :
    copyAt id 1 sharedMemory 2 = .ok (5, sharedMemory ++ [.TypeVector 1 4]) ∧
    copyAt id 1 sharedMemory 4 = .ok (5, sharedMemory ++ [.TypeDivided 1 [1]]) ∧
    toStringAt emptyEnv 3 sharedMemory 2 = .ok "<MyInt* x 4>" ∧
    toStringAt emptyEnv 3 (assignSlot (sharedMemory ++ [.TypeVector 1 4]) 1 3) 2 =
      .ok "<int* x 4>" ∧
    "<MyInt* x 4>" ≠ "<int* x 4>" ∧
    copyAt id 2 sharedMemory 1 =
      .ok (6, sharedMemory ++ [.TypeStruct "MyInt" [], .TypePointer 5]) ∧
    toStringAt emptyEnv 2
      (assignSlot (sharedMemory ++ [.TypeStruct "MyInt" [], .TypePointer 5]) 6 3) 1 =
      .ok "MyInt*" ∧
    toStringAt emptyEnv 2
      (assignSlot (sharedMemory ++ [.TypeStruct "MyInt" [], .TypePointer 5]) 6 3) 6 =
      .ok "int*" :=
  ⟨rfl, rfl, rfl, rfl, by decide, rfl, rfl, rfl⟩

/-! ## updateByTypes and the printed form -/

/-- The loop appends the printed form of each type argument and a comma. -/
theorem appendTypes_data (env : Env) :
    ∀ (types : List Ty) (strs : List String) (acc : String),
      List.Forall₂ (fun t s => toString env t = .ok s) types strs →
      ∃ r, appendTypes env types acc = .ok r ∧
        r.data = acc.data ++ strs.flatMap (fun s => s.data ++ [',']) := by
  intro types
  induction types with
  | nil =>
      intro strs acc h
      cases h
      exact ⟨acc, rfl, by simp⟩
  | cons t rest ih =>
      intro strs acc h
      cases h with
      | cons hs htail =>
          rename_i s strs
          obtain ⟨r, h1, h2⟩ := ih strs (acc ++ (s ++ ",")) htail
          refine ⟨r, ?_, ?_⟩
          · simp only [appendTypes, hs, bind_ok, h1]
          · rw [h2]
            simp [List.flatMap_cons]

theorem flatMap_comma_shift (a : String) (rest : List String) :
    (a :: rest).flatMap (fun s => s.data ++ [',']) =
      a.data ++ rest.flatMap (fun s => ',' :: s.data) ++ [','] := by
  induction rest generalizing a with
  | nil => simp
  | cons b bs ih =>
      have h := ih b
      simp only [List.flatMap_cons] at h ⊢
      rw [h]
      simp

theorem intercalate_go_data (acc : String) (rest : List String) :
    (String.intercalate.go acc "," rest).data =
      acc.data ++ rest.flatMap (fun s => ',' :: s.data) := by
  induction rest generalizing acc with
  | nil => simp [String.intercalate.go]
  | cons b bs ih =>
      simp only [String.intercalate.go, ih, String.data_append, List.flatMap_cons]
      simp

/-- The text before the first `<` of `base ++ "<" ++ rest`, `base` having none. -/
theorem takeWhile_base (base rest : List Char) (hb : '<' ∉ base) :
    (base ++ '<' :: rest).takeWhile (· != '<') = base := by
  rw [List.takeWhile_append_of_pos]
  · simp
  · intro a ha
    have : a ≠ '<' := fun h => hb (h ▸ ha)
    simpa using this

/-- The name after `updateByTypes()` when it has a `<` and the list of type
arguments is not empty. -/
theorem updateByTypes_rewrites (env : Env) (name base rest : String) (t : Ty) (ts : List Ty)
    (strs : List String)
    (hname : name = base ++ "<" ++ rest) (hbase : '<' ∉ base.data)
    (hstrs : List.Forall₂ (fun t s => toString env t = .ok s) (t :: ts) strs) :
    updateByTypes env name (t :: ts) = .ok (base ++ "<" ++ ",".intercalate strs ++ ">") ∧
    toString env (.TypeStruct (base ++ "<" ++ ",".intercalate strs ++ ">") (t :: ts)) =
      .ok (base ++ "<" ++ ",".intercalate strs ++ ">") := by
  refine ⟨?_, rfl⟩
  have hdata : name.data = base.data ++ '<' :: rest.data := by
    rw [hname]; simp
  have hc : name.toList.contains '<' = true := by
    show name.data.contains '<' = true
    rw [hdata]; simp
  have htw : String.mk (name.toList.takeWhile (· != '<')) = base := by
    show String.mk (name.data.takeWhile (· != '<')) = base
    rw [hdata, takeWhile_base base.data rest.data hbase]
  obtain ⟨r, h1, h2⟩ := appendTypes_data env (t :: ts) strs (base ++ "<") hstrs
  simp only [updateByTypes, hc, if_true, htw, h1, bind_ok, pure_eq_ok]
  congr 1
  apply String.ext
  cases hstrs with
  | cons hs htail =>
      rename_i s strs
      show (String.mk r.data.dropLast ++ ">").data = _
      rw [String.data_append, h2, flatMap_comma_shift]
      simp only [String.intercalate, intercalate_go_data, String.data_append]
      rw [← List.append_assoc, ← List.append_assoc, List.dropLast_concat]

/-- A name without `<` is left as it is, whatever the type arguments. -/
theorem updateByTypes_plain (env : Env) (name : String) (types : List Ty)
    (h : '<' ∉ name.data) : updateByTypes env name types = .ok name := by
  have hc : ¬ name.toList.contains '<' = true := by
    show ¬ name.data.contains '<' = true
    simpa using h
  unfold updateByTypes
  rw [if_neg hc]

/-- C14, as amended: for every Struct term whose `name` contains a `<`, with a
non-empty list of type arguments, after `updateByTypes()` the name, which is
what `toString()` returns, is `base<arg1,...,argn>`: `base` is the text of
`name` before its first `<`, and the arguments are the `toString()` of the
type arguments joined by ","; and for every Struct term whose `name` contains
no `<`, whatever its type arguments, `updateByTypes()` leaves the name, and so
`toString()`, as it is. -/
theorem updateByTypes_printable (env : Env) :
    (∀ (name base rest : String) (t : Ty) (ts : List Ty) (strs : List String),
      name = base ++ "<" ++ rest → '<' ∉ base.data →
      List.Forall₂ (fun t s => toString env t = .ok s) (t :: ts) strs →
      updateByTypes env name (t :: ts) = .ok (base ++ "<" ++ ",".intercalate strs ++ ">") ∧
      toString env (.TypeStruct (base ++ "<" ++ ",".intercalate strs ++ ">") (t :: ts)) =
        .ok (base ++ "<" ++ ",".intercalate strs ++ ">")) ∧
    (∀ (name : String) (types : List Ty), '<' ∉ name.data →
      updateByTypes env name types = .ok name ∧
      toString env (.TypeStruct name types) = .ok name) :=
  ⟨fun name base rest t ts strs hname hbase hstrs =>
      updateByTypes_rewrites env name base rest t ts strs hname hbase hstrs,
   fun name types h => ⟨updateByTypes_plain env name types h, rfl⟩⟩

/-- C14 on `Vec<T>` with the arguments `int` and `MyInt*`: the name becomes
`Vec<int,MyInt*>`; and on the name `Pair`, which has no `<`, the name stays
`Pair` with the same arguments. -/
theorem updateByTypes_printable_witness :
    updateByTypes emptyEnv "Vec<T>"
        [.TypeBasic (some .Int), .TypePointer (.TypeStruct "MyInt" [])] =
      .ok "Vec<int,MyInt*>" ∧
    updateByTypes emptyEnv "Pair"
        [.TypeBasic (some .Int), .TypePointer (.TypeStruct "MyInt" [])] = .ok "Pair" :=
  ⟨((updateByTypes_printable emptyEnv).1 "Vec<T>" "Vec" "T>" (.TypeBasic (some .Int))
      [.TypePointer (.TypeStruct "MyInt" [])] ["int", "MyInt*"] (by decide) (by decide)
      (.cons rfl (.cons rfl .nil))).1,
   ((updateByTypes_printable emptyEnv).2 "Pair"
      [.TypeBasic (some .Int), .TypePointer (.TypeStruct "MyInt" [])] (by decide)).1⟩

/-- C14 fails as stated: on `Struct("Vec", [Basic(Int)])`, whose name has no
`<`, `updateByTypes()` leaves the name as it is, so `toString()` is "Vec" and
not "Vec<int>". -/
theorem updateByTypes_keeps_plain_name :
    updateByTypes emptyEnv "Vec" [.TypeBasic (some .Int)] = .ok "Vec" ∧
    toString emptyEnv (.TypeStruct "Vec" [.TypeBasic (some .Int)]) = .ok "Vec" ∧
    "Vec" ++ "<" ++ ",".intercalate ["int"] ++ ">" = "Vec<int>" ∧
    "Vec" ≠ "Vec<int>" :=
  ⟨rfl, rfl, by decide, by decide⟩

/-- The loop only appends. -/
theorem appendTypes_suffix (env : Env) :
    ∀ (types : List Ty) (acc r : String), appendTypes env types acc = .ok r →
      ∃ Y, r.data = acc.data ++ Y ∧ (types = [] → Y = []) ∧ (types ≠ [] → Y ≠ []) := by
  intro types
  induction types with
  | nil =>
      intro acc r h
      simp only [appendTypes] at h
      rw [← Except.ok.inj h]
      exact ⟨[], by simp, fun _ => rfl, fun h => absurd rfl h⟩
  | cons t rest ih =>
      intro acc r h
      simp only [appendTypes, bind_eq_ok] at h
      obtain ⟨s, _, h2⟩ := h
      obtain ⟨Y, hY, _, _⟩ := ih _ r h2
      refine ⟨s.data ++ ',' :: Y, ?_, fun h => absurd h (List.cons_ne_nil _ _), fun _ => ?_⟩
      · rw [hY]
        simp
      · simp

/-- C20: `updateByTypes()` is idempotent. For every name and every list of
type arguments, the empty one included, when a call gives the name `name2`, a
second call gives `name2` again, so the name and `toString()` are after two
calls what they are after one. -/
theorem updateByTypes_idempotent (env : Env) (name name2 : String) (types : List Ty)
    (h : updateByTypes env name types = .ok name2) :
    updateByTypes env name2 types = .ok name2 ∧
    toString env (.TypeStruct name2 types) = .ok name2 := by
  refine ⟨?_, rfl⟩
  by_cases hc : name.toList.contains '<' = true
  · have h0 := h
    simp only [updateByTypes, hc, if_true, bind_eq_ok, pure_eq_ok] at h
    obtain ⟨r, h1, h2⟩ := h
    have h2 := Except.ok.inj h2
    obtain ⟨Y, hY, hnil, hne⟩ := appendTypes_suffix env types _ r h1
    have hbase : '<' ∉ name.toList.takeWhile (· != '<') := by
      intro hmem
      have := List.mem_takeWhile_imp hmem
      simp at this
    have hr : r.data = name.toList.takeWhile (· != '<') ++ '<' :: Y := by
      rw [hY]; simp
    by_cases ht : types = []
    · have hY0 := hnil ht
      have hd : name2.data = name.toList.takeWhile (· != '<') ++ ['>'] := by
        rw [← h2]
        show (String.mk r.data.dropLast ++ ">").data = _
        rw [String.data_append, hr, hY0]
        show (List.takeWhile (· != '<') name.toList ++ ['<']).dropLast ++ ['>'] = _
        rw [List.dropLast_concat]
      have hc2 : ¬ name2.toList.contains '<' = true := by
        show ¬ name2.data.contains '<' = true
        rw [hd]
        simp only [List.contains_eq_any_beq, List.any_append, List.any_cons, List.any_nil,
          Bool.or_false, Bool.or_eq_true, List.any_eq_true, beq_iff_eq, not_or]
        refine ⟨?_, by decide⟩
        rintro ⟨x, hx, rfl⟩
        exact hbase hx
      unfold updateByTypes
      rw [if_neg hc2]
    · have hYne := hne ht
      have hd : name2.data = name.toList.takeWhile (· != '<') ++ '<' :: (Y.dropLast ++ ['>']) := by
        rw [← h2]
        show (String.mk r.data.dropLast ++ ">").data = _
        rw [String.data_append, hr]
        show (List.takeWhile (· != '<') name.toList ++ '<' :: Y).dropLast ++ ['>'] = _
        rw [List.dropLast_append_cons, List.dropLast_cons_of_ne_nil hYne]
        simp
      have hc2 : name2.toList.contains '<' = true := by
        show name2.data.contains '<' = true
        rw [hd]; simp
      have htw : name2.toList.takeWhile (· != '<') = name.toList.takeWhile (· != '<') := by
        show name2.data.takeWhile (· != '<') = _
        rw [hd, takeWhile_base _ _ hbase]
      rw [← h0]
      simp only [updateByTypes, hc, hc2, if_true, htw]
  · simp only [updateByTypes, hc, if_false] at h
    have h := Except.ok.inj h
    rw [← h]
    unfold updateByTypes
    rw [if_neg hc]

/-- C20 on the three cases: a name with `<` and type arguments, a name with `<`
and no type argument (the first call leaves `Vec>`), a name without `<`. -/
theorem updateByTypes_idempotent_witness :
    updateByTypes emptyEnv "Vec<int>" [.TypeBasic (some .Int)] = .ok "Vec<int>" ∧
    updateByTypes emptyEnv "Vec>" [] = .ok "Vec>" ∧
    updateByTypes emptyEnv "Vec" [.TypeBasic (some .Int)] = .ok "Vec" :=
  ⟨(updateByTypes_idempotent emptyEnv "Vec<T>" "Vec<int>" [.TypeBasic (some .Int)] rfl).1,
   (updateByTypes_idempotent emptyEnv "Vec<T>" "Vec>" [] rfl).1,
   (updateByTypes_idempotent emptyEnv "Vec" "Vec" [.TypeBasic (some .Int)] rfl).1⟩

/-! ## Elements that are no NodeVar -/

end Rave
